import Mathlib

/-! CfgParserC: the configuration file parser of `config.c`

A shallow embedding of `src/config.c` and the properties of its lookup
routine `ConfigGetParam`.

Conventions of the embedding.

* A byte is a natural number (below 256 for a real file); a file content, a
  line buffer and a C string are lists of bytes.  A list used as a C string or
  as a zero-initialised array stands for its bytes followed by NUL bytes:
  reading past the end of the list reads `0`.
* `char c = getc(...)` keeps the low eight bits of what `getc` returns, so the
  end-of-file indicator `EOF` (-1) becomes the byte 255.
* `int` results are integers; arithmetic that can leave the 32-bit range is
  wrapped with `wrap32`; the conversion to `unsigned long` is `toULong`
  (64-bit, LP64); `atoi` is `(int) strtol`, which saturates at the range of
  `long` before the cut to `int`.
* The object behind `void *value` is a `Value`; a null pointer is `none`.
-/

namespace CfgParser

/-! ## The C library -/

/-- The stream `ConfigFile`: the content of the file, the bytes not read yet
and the end-of-file indicator. -/
structure FILE where
  data : List Nat
  rest : List Nat
  eof : Bool
deriving DecidableEq, Repr

/-- The stream right after `fopen(file, "r")` on a file with content `data`. -/
def fopen (data : List Nat) : FILE := ⟨data, data, false⟩

/-- Model of `fseek(f, 0, SEEK_SET)` on a regular file: the position is reset,
the end-of-file indicator is cleared and 0 is returned. -/
def fseek (f : FILE) : Int × FILE := (0, ⟨f.data, f.data, false⟩)

/-- Model of `feof(f)`. -/
def feof (f : FILE) : Bool := f.eof

/-- Model of `c = getc(f)` with `char c`: the next byte, or at the end of the
file the byte 255 (`(char)EOF`) with the end-of-file indicator set. -/
def getc (f : FILE) : Nat × FILE :=
  match f.rest with
  | [] => (255, ⟨f.data, [], true⟩)
  | b :: r => (b, ⟨f.data, r, f.eof⟩)

/-- Model of `strlen`: the number of bytes before the first NUL. -/
def strlen (s : List Nat) : Nat := (s.takeWhile (fun b => b != 0)).length

/-- Model of `strncmp(a, b, n)`: 0 when the first `n` bytes agree (or both
strings end earlier at the same place), else the difference of the first
bytes that differ. -/
def strncmp : List Nat → List Nat → Nat → Int
  | _, _, 0 => 0
  | a, b, n + 1 =>
    if a.headD 0 ≠ b.headD 0 then (a.headD 0 : Int) - (b.headD 0 : Int)
    else if a.headD 0 = 0 then 0
    else strncmp a.tail b.tail n

/-- Model of `strcmp(a, b)`. -/
def strcmp : List Nat → List Nat → Int
  | [], b => 0 - (b.headD 0 : Int)
  | x :: a, b =>
    if x ≠ b.headD 0 then (x : Int) - (b.headD 0 : Int)
    else if x = 0 then 0
    else strcmp a b.tail

/-- Model of `isspace` in the C locale. -/
def isspace (c : Nat) : Bool := c == 32 || (9 ≤ c && c ≤ 13)

/-- Model of `isdigit`. -/
def isdigit (c : Nat) : Bool := 48 ≤ c && c ≤ 57

/-- Reduction of an integer to the range of a 32-bit `int`. -/
def wrap32 (x : Int) : Int := (x + 2147483648) % 4294967296 - 2147483648

/-- Conversion of an `int` to `unsigned long` (64 bits). -/
def toULong (x : Int) : Nat := (x % 18446744073709551616).toNat

/-- The digit loop of `atoi`: accumulates decimal digits until the first byte
that is not a digit. -/
def atoiDigits : Int → List Nat → Int
  | acc, [] => acc
  | acc, c :: s => if isdigit c then atoiDigits (acc * 10 + ((c : Int) - 48)) s else acc

/-- The result of `strtol` for the exact value of a numeral: a value outside
the range of a 64-bit `long` becomes `LONG_MAX` or `LONG_MIN`. -/
def clampLong (x : Int) : Int :=
  if 9223372036854775807 < x then 9223372036854775807
  else if x < -9223372036854775808 then -9223372036854775808
  else x

/-- Model of `atoi` as the C library has it, `(int) strtol(s, NULL, 10)`:
leading white space, an optional sign, then decimal digits; the value is
saturated to the range of `long` and then cut to an `int`. -/
def atoi (s : List Nat) : Int :=
  match s.dropWhile isspace with
  | 45 :: r => wrap32 (clampLong (- atoiDigits 0 r))
  | 43 :: r => wrap32 (clampLong (atoiDigits 0 r))
  | r => wrap32 (clampLong (atoiDigits 0 r))

/-! ## config.c -/

/-- The loop of `ConfigParseNumber`, `for (i=0; i<strlen(str) && i<256; i++)`:
`i` is the index and the list argument is `str + i`.  `strncpy(buffer, str, i)`
into the zeroed `buffer` leaves the C string `str.take i`. -/
def ConfigParseNumber.loop (str : List Nat) : Nat → List Nat → Int
  | _, [] => atoi str
  | i, c :: s =>
    if c = 0 ∨ 256 ≤ i then atoi str
    else if c = 107 ∨ c = 75 then wrap32 (atoi (str.take i) * 1024)
    else if c = 77 then wrap32 (atoi (str.take i) * 1024 * 1024)
    else ConfigParseNumber.loop str (i + 1) s

/-- `static int ConfigParseNumber(const char *str)`. -/
def ConfigParseNumber (str : List Nat) : Int := ConfigParseNumber.loop str 0 str

/-- `static int ConfigGetStrArg(char *value, const char *name, const char *arg, int arglen)`.
The result is the return value and the bytes stored at `value` (a NUL
follows them), if any.  `value` and `arg` are arrays of the callers and never
null; `name` is the pointer of the user (`none` is the null pointer).  The
callers pass `arglen` at most the number of bytes of `arg`. -/
def ConfigGetStrArg (name : Option (List Nat)) (arg : List Nat) (arglen : Nat) :
    Int × Option (List Nat) :=
  match name with
  | none => (0, none)
  | some name =>
    if arglen ≤ 0 then (0, none)
    else
      let namelen := strlen name
      if namelen ≥ arglen then (0, none)
      else if strncmp arg name namelen = 0 then
        (1, some ((arg.drop namelen).take (arglen - namelen)))
      else (0, none)

/-- `static int ConfigGetNumArg(unsigned long int *value, const char *name, const char *arg, int arglen)`.
The result is the return value and the number stored at `value`, if any. -/
def ConfigGetNumArg (name : Option (List Nat)) (arg : List Nat) (arglen : Nat) :
    Int × Option Nat :=
  match ConfigGetStrArg name arg arglen with
  | (_, none) => (0, none)
  | (r, some buffer) =>
    if r = 0 then (0, none)
    else (1, some (toULong (ConfigParseNumber buffer)))

/-- The C string `"false"`. -/
def strFalse : List Nat := [102, 97, 108, 115, 101]

/-- The C string `"true"`. -/
def strTrue : List Nat := [116, 114, 117, 101]

/-- `static int ConfigGetBoolArg(int *value, const char *name, const char *arg, int arglen)`.
The result is the return value and the `int` stored at `value`, if any. -/
def ConfigGetBoolArg (name : Option (List Nat)) (arg : List Nat) (arglen : Nat) :
    Int × Option Int :=
  match ConfigGetStrArg name arg arglen with
  | (_, none) => (0, none)
  | (r, some buffer) =>
    if r = 0 then (0, none)
    else if strcmp buffer strFalse = 0 then (1, some 0)
    else if strcmp buffer strTrue = 0 then (1, some 1)
    else (0, none)

/-- The object the caller passes as `void *value`: a character array (the
bytes that `memcpy` stored in front of the NUL that ends them), an
`unsigned long` or an `int`. -/
inductive Value where
  | str (s : List Nat)
  | num (n : Nat)
  | int (b : Int)
deriving DecidableEq, Repr

/-- The comment loop `while((!feof(ConfigFile)) && ((c = getc(ConfigFile)) != '\n'));`
entered with the indicator clear; the list argument is the unread part of the
file.  The result is the last `c` and the stream. -/
def skipComment.loop (data : List Nat) : List Nat → Nat × FILE
  | [] => (255, ⟨data, [], true⟩)
  | b :: r => if b ≠ 10 then skipComment.loop data r else (10, ⟨data, r, false⟩)

/-- The statement `if(c == '#') while(...);`: the value of `c` and the stream
after it. -/
def skipComment (c : Nat) (f : FILE) : Nat × FILE :=
  if c = 35 then
    if feof f then (c, f) else skipComment.loop f.data f.rest
  else (c, f)

/-- The line loop `for(i=0; ((i<255) && (!feof(ConfigFile))); i++)`.  The first
argument is `255 - i`, the list is `buffer[0..i)` (the rest of `buffer` is
zero).  The result is the buffer and the stream when the loop is left; `i` is
then the length of the buffer. -/
def readLine : Nat → List Nat → FILE → List Nat × FILE
  | 0, buffer, f => (buffer, f)
  | n + 1, buffer, f =>
    if feof f then (buffer, f)
    else
      let r := getc f
      let s := skipComment r.1 r.2
      if s.1 = 10 then (buffer, s.2)
      else readLine n (buffer ++ [s.1]) s.2

/-- The trimming loop `for( ; i>0 && (buffer[i]==' ' || buffer[i]=='\0'); i--)`:
the final value of `i`. -/
def trim (buffer : List Nat) : Nat → Nat
  | 0 => 0
  | i + 1 =>
    if buffer.getD (i + 1) 0 = 32 ∨ buffer.getD (i + 1) 0 = 0 then trim buffer i
    else i + 1

/-- The `switch(type)` of `ConfigGetParam` on the line in `arg`: `some` is a
`return` with that result and that content of `value`, `none` is `break`. -/
def ConfigGetParam.switch (type : Int) (name : Option (List Nat)) (value : Value)
    (arg : List Nat) (arglen : Nat) : Option (Int × Value) :=
  if type = 1 then
    match ConfigGetStrArg name arg arglen with
    | (_, none) => none
    | (r, some s) => if r ≠ 0 then some (1, Value.str s) else none
  else if type = 2 then
    match ConfigGetNumArg name arg arglen with
    | (_, none) => none
    | (r, some n) => if r ≠ 0 then some (1, Value.num n) else none
  else if type = 3 then
    match ConfigGetBoolArg name arg arglen with
    | (_, none) => none
    | (r, some b) => if r ≠ 0 then some (1, Value.int b) else none
  else some (0, value)

/-- One line of the `while` body after the line loop: trimming, the test
`i == 0`, `i++` and the `switch`.  The trimming loop zeroes the cells behind
the final `i`, so the buffer handed on is `buffer.take (i + 1)`.  `none`
continues with the next line. -/
def ConfigGetParam.line (type : Int) (name : Option (List Nat)) (value : Value)
    (buffer : List Nat) : Option (Int × Value) :=
  let i := trim buffer buffer.length
  if i = 0 then none
  else ConfigGetParam.switch type name value (buffer.take (i + 1)) (i + 1)

/-- The loop `while(!feof(ConfigFile))` of `ConfigGetParam` with the final
`return 0`.  The first argument bounds the number of passes; `none` means the
bound was reached. -/
def ConfigGetParam.loop (type : Int) (name : Option (List Nat)) (value : Value) :
    Nat → FILE → Option (Int × Value × FILE)
  | 0, f => if feof f then some (0, value, f) else none
  | fuel + 1, f =>
    if feof f then some (0, value, f)
    else
      let r := readLine 255 [] f
      match ConfigGetParam.line type name value r.1 with
      | some (ret, v) => some (ret, v, r.2)
      | none => ConfigGetParam.loop type name value fuel r.2

/-- `int ConfigGetParam(int type, const char *name, void *value)` on the
stream `f`: the return value, the object at `value` and the stream after the
call.  Every pass of the loop reads a byte or sets the end-of-file indicator,
so one pass more than the file has bytes is enough. -/
def ConfigGetParam (f : FILE) (type : Int) (name : Option (List Nat))
    (value : Option Value) : Option (Int × Option Value × FILE) :=
  let s := fseek f
  if s.1 ≠ 0 then some (0, value, s.2)
  else
    match value with
    | none => some (0, none, s.2)
    | some v =>
      (ConfigGetParam.loop type name v (s.2.rest.length + 1) s.2).map
        (fun r => (r.1, some r.2.1, r.2.2))

/-! ## Vocabulary of the statements -/

/-- The bytes of a text. -/
def bytes (s : String) : List Nat := s.toList.map Char.toNat

/-- What the caller observes of a lookup on a freshly opened file with the
given content: the return value and the object at `value`. -/
def result (content : List Nat) (type : Int) (name : Option (List Nat))
    (value : Option Value) : Option (Int × Option Value) :=
  (ConfigGetParam (fopen content) type name value).map (fun r => (r.1, r.2.1))

/-- The loop of `ConfigGetParam` started on the unread bytes `rest` with the
end-of-file indicator clear: the return value and the object at `value`. -/
def scan (type : Int) (name : Option (List Nat)) (value : Value) (data rest : List Nat) :
    Option (Int × Value) :=
  (ConfigGetParam.loop type name value (rest.length + 1) ⟨data, rest, false⟩).map
    (fun r => (r.1, r.2.1))

/-- The stream `f` over another file content. -/
def FILE.setData (f : FILE) (data : List Nat) : FILE := ⟨data, f.rest, f.eof⟩

/-- Bytes of a line that are neither a newline nor the comment sign. -/
def Clean (a : List Nat) : Prop := ∀ b ∈ a, b ≠ 10 ∧ b ≠ 35

/-- The part of a line in front of its first comment sign `#`. -/
def beforeComment (l : List Nat) : List Nat := l.takeWhile (fun b => b != 35)

/-- A file position is a line boundary when it is the start of the file or
follows a newline: `pre` is what precedes the position. -/
def LineBoundary (pre : List Nat) : Prop := pre = [] ∨ pre.getLast? = some 10

/-- The file content made of the given lines, each followed by a newline. -/
def unlines : List (List Nat) → List Nat
  | [] => []
  | l :: ls => l ++ 10 :: unlines ls

/-- Spaces and NUL bytes are the bytes removed at the end of a line. -/
def isBlank (b : Nat) : Bool := b == 32 || b == 0

/-- A byte string without its trailing spaces and NUL bytes. -/
def rstrip (l : List Nat) : List Nat := (l.reverse.dropWhile isBlank).reverse

/-- The captured form of a line of the file: the part in front of the first
`#`, without trailing spaces and NUL bytes. -/
def captured (l : List Nat) : List Nat := rstrip (beforeComment l)

/-- A byte string read as a C string: the bytes in front of the first NUL. -/
def cstr (s : List Nat) : List Nat := s.takeWhile (fun b => b != 0)

/-- The boolean a line denotes for `name`: its captured form begins with
`name` and the rest, read as a C string, is `false` (0) or `true` (1). -/
def boolValue (name l : List Nat) : Option Int :=
  if name <+: captured l then
    if cstr ((captured l).drop name.length) = strFalse then some 0
    else if cstr ((captured l).drop name.length) = strTrue then some 1
    else none
  else none

/-- The decimal numeral of a natural number, without leading zeros. -/
def decimal (d : Nat) : List Nat :=
  if d = 0 then [48] else (Nat.digits 10 d).reverse.map (fun x => x + 48)

/-- The trimmed line `c` is a candidate for `name`: it has at least two bytes,
is longer than `name` and begins with it. -/
def Hit (name c : List Nat) : Prop :=
  2 ≤ c.length ∧ name.length < c.length ∧ name <+: c

instance (name c : List Nat) : Decidable (Hit name c) := by
  unfold Hit
  infer_instance

/-- What a numeric text leaves to the digit loop of `atoi`: the text behind
the leading white space and one optional sign. -/
def afterSign (s : List Nat) : List Nat :=
  match s.dropWhile isspace with
  | 45 :: r => r
  | 43 :: r => r
  | r => r

/-- The text starts, after optional white space and sign, with a decimal
digit. -/
def startsNumeric (s : List Nat) : Bool :=
  match afterSign s with
  | c :: _ => isdigit c
  | [] => false

/-- A byte string without its trailing spaces. -/
def trimSpaces (l : List Nat) : List Nat :=
  (l.reverse.dropWhile (fun b => b == 32)).reverse

/-- The first alternative when it is a result, else the second. -/
def orElse {α : Type} (o r : Option α) : Option α :=
  match o with
  | some x => some x
  | none => r

/-! ## Reading one line -/

theorem skipLoop_newline (d c X : List Nat) (h : ∀ b ∈ c, b ≠ 10) :
    skipComment.loop d (c ++ 10 :: X) = (10, ⟨d, X, false⟩) := by
  induction c with
  | nil => simp [skipComment.loop]
  | cons b c ih =>
    have hb : b ≠ 10 := h b (by simp)
    simp only [List.cons_append, skipComment.loop, hb, ne_eq, not_false_eq_true, if_true]
    exact ih (fun x hx => h x (by simp [hx]))

theorem skipLoop_end (d c : List Nat) (h : ∀ b ∈ c, b ≠ 10) :
    skipComment.loop d c = (255, ⟨d, [], true⟩) := by
  induction c with
  | nil => simp [skipComment.loop]
  | cons b c ih =>
    have hb : b ≠ 10 := h b (by simp)
    simp only [skipComment.loop, hb, ne_eq, not_false_eq_true, if_true]
    exact ih (fun x hx => h x (by simp [hx]))

theorem skipLoop_length (d r : List Nat) :
    (skipComment.loop d r).2.rest.length ≤ r.length := by
  induction r with
  | nil => simp [skipComment.loop]
  | cons b r ih =>
    simp only [skipComment.loop]
    split
    · exact Nat.le_succ_of_le ih
    · simp

theorem skipLoop_data (d r : List Nat) : (skipComment.loop d r).2.data = d := by
  induction r with
  | nil => simp [skipComment.loop]
  | cons b r ih =>
    simp only [skipComment.loop]
    split
    · exact ih
    · simp

theorem readLine_clean (n : Nat) (buf d a Y : List Nat) (ha : Clean a) (hn : a.length ≤ n) :
    readLine n buf ⟨d, a ++ Y, false⟩ = readLine (n - a.length) (buf ++ a) ⟨d, Y, false⟩ := by
  induction a generalizing n buf with
  | nil => simp
  | cons b a ih =>
    obtain ⟨h10, h35⟩ := ha b (by simp)
    have ha2 : Clean a := fun x hx => ha x (by simp [hx])
    cases n with
    | zero => simp at hn
    | succ n =>
      have hn2 : a.length ≤ n := by simpa using hn
      simp only [List.cons_append, readLine, feof, getc, skipComment, h35, h10, if_false,
        Bool.false_eq_true]
      rw [ih n (buf ++ [b]) ha2 hn2]
      simp

theorem readLine_newline (n : Nat) (buf d a X : List Nat) (ha : Clean a) (hn : a.length < n) :
    readLine n buf ⟨d, a ++ 10 :: X, false⟩ = (buf ++ a, ⟨d, X, false⟩) := by
  rw [readLine_clean n buf d a _ ha (Nat.le_of_lt hn)]
  obtain ⟨m, hm⟩ : ∃ m, n - a.length = m + 1 := ⟨n - a.length - 1, by omega⟩
  rw [hm]
  simp [readLine, feof, getc, skipComment]

theorem readLine_comment (n : Nat) (buf d a c X : List Nat) (ha : Clean a)
    (hc : ∀ b ∈ c, b ≠ 10) (hn : a.length < n) :
    readLine n buf ⟨d, a ++ 35 :: (c ++ 10 :: X), false⟩ = (buf ++ a, ⟨d, X, false⟩) := by
  rw [readLine_clean n buf d a _ ha (Nat.le_of_lt hn)]
  obtain ⟨m, hm⟩ : ∃ m, n - a.length = m + 1 := ⟨n - a.length - 1, by omega⟩
  rw [hm]
  simp [readLine, feof, getc, skipComment, skipLoop_newline d c X hc]

theorem readLine_full (n : Nat) (buf d a Y : List Nat) (ha : Clean a) (hn : a.length = n) :
    readLine n buf ⟨d, a ++ Y, false⟩ = (buf ++ a, ⟨d, Y, false⟩) := by
  rw [readLine_clean n buf d a _ ha (Nat.le_of_eq hn)]
  simp [hn, readLine]

theorem readLine_end (n : Nat) (buf d a : List Nat) (ha : Clean a) (hn : a.length < n) :
    readLine n buf ⟨d, a, false⟩ = (buf ++ a ++ [255], ⟨d, [], true⟩) := by
  have h := readLine_clean n buf d a [] ha (Nat.le_of_lt hn)
  rw [List.append_nil] at h
  rw [h]
  obtain ⟨m, hm⟩ : ∃ m, n - a.length = m + 1 := ⟨n - a.length - 1, by omega⟩
  rw [hm]
  cases m <;> simp [readLine, feof, getc, skipComment]

theorem readLine_comment_end (n : Nat) (buf d a c : List Nat) (ha : Clean a)
    (hc : ∀ b ∈ c, b ≠ 10) (hn : a.length < n) :
    readLine n buf ⟨d, a ++ 35 :: c, false⟩ = (buf ++ a ++ [255], ⟨d, [], true⟩) := by
  rw [readLine_clean n buf d a _ ha (Nat.le_of_lt hn)]
  obtain ⟨m, hm⟩ : ∃ m, n - a.length = m + 1 := ⟨n - a.length - 1, by omega⟩
  rw [hm]
  cases m <;> simp [readLine, feof, getc, skipComment, skipLoop_end d c hc]

/-- The line loop never gives bytes back to the stream. -/
theorem readLine_length (n : Nat) (buf : List Nat) (f : FILE) :
    (readLine n buf f).2.rest.length ≤ f.rest.length := by
  induction n generalizing buf f with
  | zero => simp [readLine]
  | succ n ih =>
    obtain ⟨d, r, e⟩ := f
    cases e with
    | true => simp [readLine, feof]
    | false =>
      have hs : (skipComment (getc ⟨d, r, false⟩).1 (getc ⟨d, r, false⟩).2).2.rest.length
          ≤ r.length := by
        cases r with
        | nil => simp [getc, skipComment, feof]
        | cons b r =>
          simp only [getc, skipComment, feof]
          split
          · simp only [Bool.false_eq_true, if_false, List.length_cons]
            exact Nat.le_succ_of_le (skipLoop_length d r)
          · simp
      simp only [readLine, feof, Bool.false_eq_true, if_false]
      split
      · exact hs
      · exact le_trans (ih _ _) hs

/-- A pass of the line loop on a stream that is not at its end reads a
byte or sets the end-of-file indicator. -/
theorem readLine_progress (n : Nat) (buf : List Nat) (f : FILE) (hf : f.eof = false) :
    (readLine (n + 1) buf f).2.eof = true ∨
      (readLine (n + 1) buf f).2.rest.length < f.rest.length := by
  obtain ⟨d, r, e⟩ := f
  simp only at hf
  subst hf
  cases r with
  | nil =>
    left
    cases n <;> simp [readLine, feof, getc, skipComment]
  | cons b r =>
    right
    have hs : (skipComment (getc ⟨d, b :: r, false⟩).1 (getc ⟨d, b :: r, false⟩).2).2.rest.length
        ≤ r.length := by
      simp only [getc, skipComment, feof]
      split
      · simp only [Bool.false_eq_true, if_false]
        exact skipLoop_length d r
      · simp
    simp only [readLine, feof, Bool.false_eq_true, if_false, List.length_cons]
    split
    · exact Nat.lt_succ_of_le hs
    · exact Nat.lt_succ_of_le (le_trans (readLine_length _ _ _) hs)


/-! ## The file content behind the stream is not consulted -/

theorem skipLoop_setData (d d2 r : List Nat) :
    skipComment.loop d2 r = ((skipComment.loop d r).1, (skipComment.loop d r).2.setData d2) := by
  induction r with
  | nil => simp [skipComment.loop, FILE.setData]
  | cons b r ih =>
    simp only [skipComment.loop]
    split
    · exact ih
    · simp [FILE.setData]

theorem readLine_setData (n : Nat) (buf : List Nat) (f : FILE) (d2 : List Nat) :
    readLine n buf (f.setData d2) = ((readLine n buf f).1, (readLine n buf f).2.setData d2) := by
  induction n generalizing buf f with
  | zero => simp [readLine]
  | succ n ih =>
    obtain ⟨d, r, e⟩ := f
    cases e with
    | true => simp [readLine, feof, FILE.setData]
    | false =>
      have hs : skipComment (getc ⟨d2, r, false⟩).1 (getc ⟨d2, r, false⟩).2 =
          ((skipComment (getc ⟨d, r, false⟩).1 (getc ⟨d, r, false⟩).2).1,
           (skipComment (getc ⟨d, r, false⟩).1 (getc ⟨d, r, false⟩).2).2.setData d2) := by
        cases r with
        | nil => simp [getc, skipComment, feof, FILE.setData]
        | cons b r =>
          simp only [getc, skipComment, feof]
          split
          · simp only [Bool.false_eq_true, if_false]
            exact skipLoop_setData d d2 r
          · simp [FILE.setData]
      simp only [FILE.setData, readLine, feof, Bool.false_eq_true, if_false]
      rw [hs]
      simp only
      split
      · rfl
      · exact ih _ _

theorem loop_setData (ty : Int) (name : Option (List Nat)) (v : Value) (fuel : Nat)
    (f : FILE) (d2 : List Nat) :
    ConfigGetParam.loop ty name v fuel (f.setData d2) =
      (ConfigGetParam.loop ty name v fuel f).map (fun r => (r.1, r.2.1, r.2.2.setData d2)) := by
  induction fuel generalizing f with
  | zero =>
    cases h : f.eof <;> simp [ConfigGetParam.loop, feof, FILE.setData, h]
  | succ fuel ih =>
    cases h : f.eof
    · simp only [ConfigGetParam.loop, feof, FILE.setData, h, Bool.false_eq_true, if_false]
      have hr := readLine_setData 255 [] f d2
      simp only [FILE.setData, h] at hr
      rw [hr]
      simp only
      cases hl : ConfigGetParam.line ty name v (readLine 255 [] f).1 with
      | some r => simp [FILE.setData]
      | none => exact ih _
    · simp [ConfigGetParam.loop, feof, FILE.setData, h]

theorem scan_data (ty : Int) (name : Option (List Nat)) (v : Value) (d d2 rest : List Nat) :
    scan ty name v d2 rest = scan ty name v d rest := by
  have h := loop_setData ty name v (rest.length + 1) ⟨d, rest, false⟩ d2
  simp only [FILE.setData] at h
  simp only [scan, h, Option.map_map]
  rfl

/-! ## The bound on the number of passes is never reached -/

theorem loop_fuel (ty : Int) (name : Option (List Nat)) (v : Value) (fuel fuel2 : Nat)
    (f : FILE) (h1 : f.eof = true ∨ f.rest.length < fuel)
    (h2 : f.eof = true ∨ f.rest.length < fuel2) :
    ConfigGetParam.loop ty name v fuel f = ConfigGetParam.loop ty name v fuel2 f := by
  induction fuel generalizing fuel2 f with
  | zero =>
    have he : f.eof = true := by
      rcases h1 with h | h
      · exact h
      · simp at h
    cases fuel2 <;> simp [ConfigGetParam.loop, feof, he]
  | succ fuel ih =>
    cases he : f.eof
    · have h2b : f.rest.length < fuel2 := by
        rcases h2 with h | h
        · rw [he] at h; simp at h
        · exact h
      have h1b : f.rest.length < fuel + 1 := by
        rcases h1 with h | h
        · rw [he] at h; simp at h
        · exact h
      obtain ⟨m, rfl⟩ : ∃ m, fuel2 = m + 1 := ⟨fuel2 - 1, by omega⟩
      simp only [ConfigGetParam.loop, feof, he, Bool.false_eq_true, if_false]
      cases hl : ConfigGetParam.line ty name v (readLine 255 [] f).1 with
      | some r => rfl
      | none =>
        simp only
        have hp : (readLine 255 [] f).2.eof = true ∨
            (readLine 255 [] f).2.rest.length < f.rest.length := readLine_progress 254 [] f he
        apply ih
        · rcases hp with hp | hp
          · exact Or.inl hp
          · exact Or.inr (by omega)
        · rcases hp with hp | hp
          · exact Or.inl hp
          · exact Or.inr (by omega)
    · cases fuel2 <;> simp [ConfigGetParam.loop, feof, he]

theorem loop_eof (ty : Int) (name : Option (List Nat)) (v : Value) (fuel : Nat)
    (f : FILE) (h : f.eof = true) :
    ConfigGetParam.loop ty name v fuel f = some (0, v, f) := by
  cases fuel <;> simp [ConfigGetParam.loop, feof, h]

theorem readLine_data (n : Nat) (buf : List Nat) (f : FILE) :
    (readLine n buf f).2.data = f.data := by
  have h := readLine_setData n buf f f.data
  have hf : f.setData f.data = f := rfl
  rw [hf] at h
  have h2 := congrArg (fun p => p.2.data) h
  simp only [FILE.setData] at h2
  exact h2

/-- One pass of the loop: the line that was read decides, or the scan goes on
with what is left of the file. -/
theorem scan_step (ty : Int) (name : Option (List Nat)) (v : Value) (d rest : List Nat) :
    scan ty name v d rest =
      orElse (ConfigGetParam.line ty name v (readLine 255 [] ⟨d, rest, false⟩).1)
        (if (readLine 255 [] ⟨d, rest, false⟩).2.eof = true then some (0, v)
         else scan ty name v d (readLine 255 [] ⟨d, rest, false⟩).2.rest) := by
  have hp : (readLine 255 [] ⟨d, rest, false⟩).2.eof = true ∨
      (readLine 255 [] ⟨d, rest, false⟩).2.rest.length < rest.length :=
    readLine_progress 254 [] ⟨d, rest, false⟩ rfl
  have hd : (readLine 255 [] ⟨d, rest, false⟩).2.data = d := readLine_data 255 [] ⟨d, rest, false⟩
  unfold scan
  rw [ConfigGetParam.loop]
  simp only [feof, Bool.false_eq_true, if_false]
  generalize readLine 255 [] ⟨d, rest, false⟩ = R at hp hd
  obtain ⟨buf, d2, r2, e2⟩ := R
  simp only at hp hd
  subst hd
  cases hl : ConfigGetParam.line ty name v buf with
  | some r => simp [orElse]
  | none =>
    simp only [orElse]
    cases e2 with
    | false =>
      have hp2 : r2.length < rest.length := by simpa using hp
      simp only [Bool.false_eq_true, if_false]
      rw [loop_fuel ty name v rest.length (r2.length + 1) _ (Or.inr hp2) (Or.inr (by simp))]
    | true =>
      simp only [if_true]
      rw [loop_eof ty name v _ _ rfl]
      rfl


/-! ## Whole lines -/

theorem orElse_assoc {α : Type} (a b c : Option α) :
    orElse a (orElse b c) = orElse (orElse a b) c := by
  cases a <;> rfl

theorem line_nil (ty : Int) (name : Option (List Nat)) (v : Value) :
    ConfigGetParam.line ty name v [] = none := by
  simp [ConfigGetParam.line, trim]

theorem line_split (l : List Nat) (h : ∀ b ∈ l, b ≠ 10) :
    Clean (beforeComment l) ∧
      (l = beforeComment l ∨ ∃ c, l = beforeComment l ++ 35 :: c ∧ ∀ b ∈ c, b ≠ 10) := by
  induction l with
  | nil => exact ⟨fun b hb => by simp [beforeComment] at hb, Or.inl rfl⟩
  | cons x l ih =>
    have hx : x ≠ 10 := h x (by simp)
    have hl : ∀ b ∈ l, b ≠ 10 := fun b hb => h b (by simp [hb])
    obtain ⟨ih1, ih2⟩ := ih hl
    by_cases h35 : x = 35
    · subst h35
      refine ⟨fun b hb => by simp [beforeComment] at hb, Or.inr ⟨l, ?_, hl⟩⟩
      simp [beforeComment]
    · have hb : beforeComment (x :: l) = x :: beforeComment l := by
        simp [beforeComment, h35]
      rw [hb]
      refine ⟨?_, ?_⟩
      · intro b hb2
        rcases List.mem_cons.1 hb2 with rfl | hb3
        · exact ⟨hx, h35⟩
        · exact ih1 b hb3
      · rcases ih2 with h2 | ⟨c, hc, hc2⟩
        · exact Or.inl (by rw [← h2])
        · exact Or.inr ⟨c, by rw [List.cons_append, ← hc], hc2⟩

/-- An empty line and a comment line are passed over. -/
theorem scan_blank (ty : Int) (name : Option (List Nat)) (v : Value) (d t X : List Nat)
    (ht : t = [] ∨ ∃ c, t = 35 :: c ∧ ∀ b ∈ c, b ≠ 10) :
    scan ty name v d (t ++ 10 :: X) = scan ty name v d X := by
  have hr : readLine 255 [] ⟨d, t ++ 10 :: X, false⟩ = ([], ⟨d, X, false⟩) := by
    rcases ht with rfl | ⟨c, rfl, hc⟩
    · exact readLine_newline 255 [] d [] X (fun b hb => by simp at hb) (by simp)
    · exact readLine_comment 255 [] d [] c X (fun b hb => by simp at hb) hc (by simp)
  rw [scan_step, hr]
  simp [line_nil, orElse]

/-- A line with at most 255 bytes in front of its comment: the bytes in front
of the comment are the line that is matched. -/
theorem scan_line (ty : Int) (name : Option (List Nat)) (v : Value) (d l X : List Nat)
    (hl : ∀ b ∈ l, b ≠ 10) (hlen : (beforeComment l).length ≤ 255) :
    scan ty name v d (l ++ 10 :: X) =
      orElse (ConfigGetParam.line ty name v (beforeComment l)) (scan ty name v d X) := by
  obtain ⟨hclean, hsplit⟩ := line_split l hl
  rcases Nat.lt_or_ge (beforeComment l).length 255 with hlt | hge
  · have hr : readLine 255 [] ⟨d, l ++ 10 :: X, false⟩ = (beforeComment l, ⟨d, X, false⟩) := by
      rcases hsplit with h | ⟨c, h, hc⟩
      · have := readLine_newline 255 [] d (beforeComment l) X hclean hlt
        rw [← h] at this
        rw [this, List.nil_append, ← h]
      · have := readLine_comment 255 [] d (beforeComment l) c X hclean hc hlt
        rw [List.nil_append] at this
        rw [← this]
        conv => lhs; rw [h]
        simp
    rw [scan_step, hr]
    simp
  · have heq : (beforeComment l).length = 255 := le_antisymm hlen hge
    obtain ⟨t, ht, ht2⟩ : ∃ t, l = beforeComment l ++ t ∧
        (t = [] ∨ ∃ c, t = 35 :: c ∧ ∀ b ∈ c, b ≠ 10) := by
      rcases hsplit with h | ⟨c, h, hc⟩
      · exact ⟨[], by rw [List.append_nil]; exact h, Or.inl rfl⟩
      · exact ⟨35 :: c, h, Or.inr ⟨c, rfl, hc⟩⟩
    have hr : readLine 255 [] ⟨d, l ++ 10 :: X, false⟩ =
        (beforeComment l, ⟨d, t ++ 10 :: X, false⟩) := by
      have := readLine_full 255 [] d (beforeComment l) (t ++ 10 :: X) hclean heq
      rw [List.nil_append] at this
      rw [← this]
      conv => lhs; rw [ht]
      simp
    rw [scan_step, hr]
    simp only [Bool.false_eq_true, if_false]
    rw [scan_blank ty name v d t X ht2]

/-- Whatever a newline-terminated line holds, either it decides the lookup or
the scan goes on behind it, and which of the two does not depend on what
follows the line. -/
theorem scan_line_frame (ty : Int) (name : Option (List Nat)) (v : Value) (n : Nat) :
    ∀ l : List Nat, l.length ≤ n → (∀ b ∈ l, b ≠ 10) →
      ∃ o : Option (Int × Value), ∀ d X,
        scan ty name v d (l ++ 10 :: X) = orElse o (scan ty name v d X) := by
  induction n using Nat.strong_induction_on with
  | _ n ih =>
    intro l hn hl
    rcases Nat.lt_or_ge 255 (beforeComment l).length with hgt | hle
    · have hpre : beforeComment l <+: l := List.takeWhile_prefix _
      obtain ⟨t, ht⟩ := hpre
      have hclean := (line_split l hl).1
      have hsplit : l = (beforeComment l).take 255 ++ ((beforeComment l).drop 255 ++ t) := by
        rw [← List.append_assoc, List.take_append_drop, ht]
      have hc1 : Clean ((beforeComment l).take 255) :=
        fun b hb => hclean b (List.mem_of_mem_take hb)
      have hlen1 : ((beforeComment l).take 255).length = 255 := by
        rw [List.length_take]; omega
      have hl2 : ∀ b ∈ (beforeComment l).drop 255 ++ t, b ≠ 10 := by
        intro b hb
        apply hl b
        rw [hsplit]
        exact List.mem_append_right _ hb
      have hlen2 : ((beforeComment l).drop 255 ++ t).length < n := by
        have : l.length = 255 + ((beforeComment l).drop 255 ++ t).length := by
          conv => lhs; rw [hsplit]
          rw [List.length_append, hlen1]
        omega
      obtain ⟨o, ho⟩ := ih _ hlen2 _ (le_refl _) hl2
      refine ⟨orElse (ConfigGetParam.line ty name v ((beforeComment l).take 255)) o, ?_⟩
      intro d X
      have hr : readLine 255 [] ⟨d, l ++ 10 :: X, false⟩ =
          ((beforeComment l).take 255,
            ⟨d, ((beforeComment l).drop 255 ++ t) ++ 10 :: X, false⟩) := by
        have := readLine_full 255 [] d ((beforeComment l).take 255)
          (((beforeComment l).drop 255 ++ t) ++ 10 :: X) hc1 hlen1
        rw [List.nil_append] at this
        rw [← this]
        conv => lhs; rw [hsplit]
        simp
      rw [scan_step, hr]
      simp only [Bool.false_eq_true, if_false]
      rw [ho d X, orElse_assoc]
    · exact ⟨_, fun d X => scan_line ty name v d l X hl hle⟩

theorem boundary_split (pre : List Nat) (hne : pre ≠ []) (h : LineBoundary pre) :
    ∃ l rest, pre = l ++ 10 :: rest ∧ (∀ b ∈ l, b ≠ 10) ∧ LineBoundary rest := by
  induction pre with
  | nil => exact absurd rfl hne
  | cons x p ih =>
    have hlast : (x :: p).getLast? = some 10 := by
      rcases h with h | h
      · exact absurd h hne
      · exact h
    by_cases hx : x = 10
    · subst hx
      refine ⟨[], p, rfl, fun b hb => by simp at hb, ?_⟩
      cases p with
      | nil => exact Or.inl rfl
      | cons y q =>
        right
        rw [List.getLast?_cons_cons] at hlast
        exact hlast
    · cases p with
      | nil =>
        simp at hlast
        exact absurd hlast hx
      | cons y q =>
        rw [List.getLast?_cons_cons] at hlast
        obtain ⟨l, rest, h1, h2, h3⟩ := ih (by simp) (Or.inr hlast)
        refine ⟨x :: l, rest, by rw [h1]; rfl, ?_, h3⟩
        intro b hb
        rcases List.mem_cons.1 hb with rfl | hb2
        · exact hx
        · exact h2 b hb2

/-- The lines in front of a line boundary either decide the lookup or leave it
to what follows, and which of the two does not depend on what follows. -/
theorem scan_frame (ty : Int) (name : Option (List Nat)) (v : Value) (n : Nat) :
    ∀ pre : List Nat, pre.length ≤ n → LineBoundary pre →
      ∃ o : Option (Int × Value), ∀ d X,
        scan ty name v d (pre ++ X) = orElse o (scan ty name v d X) := by
  induction n with
  | zero =>
    intro pre hn _
    have : pre = [] := List.eq_nil_of_length_eq_zero (Nat.le_zero.1 hn)
    subst this
    exact ⟨none, fun d X => rfl⟩
  | succ n ih =>
    intro pre hn hb
    by_cases hne : pre = []
    · subst hne
      exact ⟨none, fun d X => rfl⟩
    · obtain ⟨l, rest, h1, h2, h3⟩ := boundary_split pre hne hb
      have hlen : rest.length ≤ n := by
        rw [h1, List.length_append, List.length_cons] at hn
        omega
      obtain ⟨o2, ho2⟩ := ih rest hlen h3
      obtain ⟨o1, ho1⟩ := scan_line_frame ty name v l.length l (le_refl _) h2
      refine ⟨orElse o1 o2, fun d X => ?_⟩
      rw [h1, List.append_assoc, List.cons_append, ho1, ho2, orElse_assoc]


/-! ## Lookups on a freshly opened file -/

theorem result_none (content : List Nat) (ty : Int) (name : Option (List Nat)) :
    result content ty name none = some (0, none) := by
  simp [result, ConfigGetParam, fseek, fopen]

theorem result_some (content : List Nat) (ty : Int) (name : Option (List Nat)) (v : Value)
    (d : List Nat) :
    result content ty name (some v) =
      (scan ty name v d content).map (fun r => (r.1, some r.2)) := by
  rw [scan_data ty name v content d content]
  simp [result, ConfigGetParam, fseek, fopen, scan, Option.map_map]
  rfl

theorem scan_nil (ty : Int) (name : Option (List Nat)) (v : Value) (d : List Nat) :
    scan ty name v d [] = some (0, v) := by
  rw [scan_step]
  have hr : readLine 255 [] ⟨d, [], false⟩ = ([255], ⟨d, [], true⟩) := by
    simp [readLine, feof, getc, skipComment]
  rw [hr]
  simp [ConfigGetParam.line, trim, orElse]


/-! ## Trimming -/

theorem trim_le (buf : List Nat) (i : Nat) : trim buf i ≤ i := by
  induction i with
  | zero => simp [trim]
  | succ i ih =>
    simp only [trim]
    split
    · exact Nat.le_succ_of_le ih
    · exact le_refl _

theorem trim_congr (buf buf2 : List Nat) (i : Nat)
    (h : ∀ j, 1 ≤ j → j ≤ i → buf.getD j 0 = buf2.getD j 0) : trim buf i = trim buf2 i := by
  induction i with
  | zero => simp [trim]
  | succ i ih =>
    simp only [trim]
    rw [h (i + 1) (by omega) (le_refl _), ih (fun j h1 h2 => h j h1 (by omega))]

theorem trim_length (buf : List Nat) : trim buf buf.length = trim buf (buf.length - 1) := by
  cases hb : buf.length with
  | zero => rfl
  | succ i =>
    have h0 : buf.getD (i + 1) 0 = 0 := List.getD_eq_default _ _ (by omega)
    simp only [trim, h0, or_true, if_true]
    rfl

theorem rstrip_snoc (init : List Nat) (x : Nat) :
    rstrip (init ++ [x]) = if isBlank x = true then rstrip init else init ++ [x] := by
  simp only [rstrip, List.reverse_append, List.reverse_cons, List.reverse_nil, List.nil_append,
    List.singleton_append, List.dropWhile_cons]
  split <;> simp

theorem rstrip_length_le (l : List Nat) : (rstrip l).length ≤ l.length := by
  simp only [rstrip, List.length_reverse]
  have h := (List.dropWhile_suffix isBlank (l := l.reverse)).length_le
  simpa using h

theorem rstrip_initial (l : List Nat) : rstrip l <+: l := by
  simp only [rstrip]
  have h := List.dropWhile_suffix isBlank (l := l.reverse)
  have h2 := List.reverse_prefix.2 h
  simpa using h2

theorem isBlank_iff (x : Nat) : isBlank x = true ↔ (x = 32 ∨ x = 0) := by
  simp [isBlank]

/-- The trimming loop computes `rstrip`, except that it never looks at the
first byte: a line that is left with fewer than two bytes gives `i = 0`. -/
theorem trim_spec (buf : List Nat) :
    (trim buf buf.length = 0 ∧ (rstrip buf).length ≤ 1) ∨
      (2 ≤ (rstrip buf).length ∧ trim buf buf.length + 1 = (rstrip buf).length ∧
        buf.take (trim buf buf.length + 1) = rstrip buf) := by
  induction buf using List.reverseRecOn with
  | nil => left; simp [trim, rstrip]
  | append_singleton init x ih =>
    rw [trim_length, rstrip_snoc]
    have hlen : (init ++ [x]).length - 1 = init.length := by simp
    rw [hlen]
    cases hk : init.length with
    | zero =>
      have : init = [] := List.eq_nil_of_length_eq_zero hk
      subst this
      left
      refine ⟨by simp [trim], ?_⟩
      split <;> simp [rstrip]
    | succ k =>
      have hx : (init ++ [x]).getD (k + 1) 0 = x := by
        rw [List.getD_append_right _ _ _ _ (by omega)]
        simp [hk]
      have hinit : trim (init ++ [x]) k = trim init init.length := by
        rw [trim_length init, hk]
        apply trim_congr
        intro j _ hj
        exact List.getD_append _ _ _ _ (by omega)
      by_cases hb : isBlank x = true
      · have hb2 : x = 32 ∨ x = 0 := (isBlank_iff x).1 hb
        have ht : trim (init ++ [x]) (k + 1) = trim init init.length := by
          simp only [trim, hx, hb2, if_true]
          exact hinit
        rw [ht]
        simp only [hb, if_true]
        rcases ih with ⟨h1, h2⟩ | ⟨h1, h2, h3⟩
        · exact Or.inl ⟨h1, h2⟩
        · right
          refine ⟨h1, h2, ?_⟩
          rw [List.take_append_of_le_length]
          · exact h3
          · have := rstrip_length_le init
            omega
      · have hb2 : ¬ (x = 32 ∨ x = 0) := fun h => hb ((isBlank_iff x).2 h)
        have ht : trim (init ++ [x]) (k + 1) = k + 1 := by
          simp only [trim, hx, hb2, if_false]
        rw [ht]
        simp only [hb, if_false]
        right
        refine ⟨by simp [hk], by simp [hk], ?_⟩
        rw [List.take_of_length_le]
        simp [hk]
        simp [hk]

/-- The body of the loop on a buffer, in terms of the trimmed line. -/
theorem line_eq (ty : Int) (name : Option (List Nat)) (v : Value) (buf : List Nat) :
    ConfigGetParam.line ty name v buf =
      if 2 ≤ (rstrip buf).length then
        ConfigGetParam.switch ty name v (rstrip buf) (rstrip buf).length
      else none := by
  rcases trim_spec buf with ⟨h1, h2⟩ | ⟨h1, h2, h3⟩
  · have : ¬ 2 ≤ (rstrip buf).length := by omega
    simp [ConfigGetParam.line, h1, this]
  · have h0 : trim buf buf.length ≠ 0 := by omega
    simp only [ConfigGetParam.line, h0, if_false, h1, if_true, h3]
    rw [h2]

/-! ## Matching the name -/

theorem strlen_eq (name : List Nat) (h : ∀ b ∈ name, b ≠ 0) : strlen name = name.length := by
  have : name.takeWhile (fun b => b != 0) = name := by
    rw [List.takeWhile_eq_self_iff]
    intro x hx
    simpa using h x hx
  simp [strlen, this]

theorem strncmp_eq_zero (name arg : List Nat) (h : ∀ b ∈ name, b ≠ 0) :
    strncmp arg name name.length = 0 ↔ name <+: arg := by
  induction name generalizing arg with
  | nil => simp [strncmp]
  | cons x name ih =>
    have hx : x ≠ 0 := h x (by simp)
    have hn : ∀ b ∈ name, b ≠ 0 := fun b hb => h b (by simp [hb])
    cases arg with
    | nil =>
      simp only [strncmp, List.length_cons, List.headD_nil, List.headD_cons]
      have h0 : (0 : Nat) ≠ x := fun h => hx h.symm
      simp only [h0, ne_eq, not_false_eq_true, if_true]
      constructor
      · intro h2
        exfalso
        have : (x : Int) = 0 := by omega
        exact hx (by exact_mod_cast this)
      · intro h2
        simp at h2
    | cons y arg =>
      simp only [strncmp, List.length_cons, List.headD_cons, List.tail_cons]
      by_cases hxy : y = x
      · subst hxy
        simp only [ne_eq, not_true_eq_false, if_false, hx]
        rw [ih arg hn]
        simp [List.cons_prefix_cons]
      · simp only [ne_eq, hxy, not_false_eq_true, if_true]
        constructor
        · intro h2
          exfalso
          have : (y : Int) = x := by omega
          exact hxy (by exact_mod_cast this)
        · intro h2
          rw [List.cons_prefix_cons] at h2
          exact absurd h2.1.symm hxy

/-- `ConfigGetStrArg` on a line: the name has to be a proper prefix of the
line, and the rest of the line is stored. -/
theorem strArg_eq (name c : List Nat) (h : ∀ b ∈ name, b ≠ 0) :
    ConfigGetStrArg (some name) c c.length =
      if name.length < c.length ∧ name <+: c then (1, some (c.drop name.length))
      else (0, none) := by
  simp only [ConfigGetStrArg, strlen_eq name h]
  by_cases h0 : c.length ≤ 0
  · have : ¬ (name.length < c.length ∧ name <+: c) := by omega
    simp [h0, this]
  · by_cases h1 : name.length ≥ c.length
    · have : ¬ (name.length < c.length ∧ name <+: c) := by omega
      simp [h0, h1, this]
    · have h2 : name.length < c.length := by omega
      simp only [h0, h1, if_false, strncmp_eq_zero name c h, h2, true_and]
      split
      · rw [List.take_of_length_le]
        simp
      · rfl


/-! ## Decoding a line -/

theorem strcmp_eq_zero (a lit : List Nat) (h : ∀ b ∈ lit, b ≠ 0) :
    strcmp a lit = 0 ↔ cstr a = lit := by
  induction a generalizing lit with
  | nil =>
    cases lit with
    | nil => simp [strcmp, cstr]
    | cons y l =>
      have hy : y ≠ 0 := h y (by simp)
      simp only [strcmp, List.headD_cons, cstr, List.takeWhile_nil]
      constructor
      · intro h2
        exfalso
        have : (y : Int) = 0 := by omega
        exact hy (by exact_mod_cast this)
      · intro h2
        simp at h2
  | cons x a ih =>
    cases lit with
    | nil =>
      simp only [strcmp, List.headD_nil, cstr, List.takeWhile_cons]
      by_cases hx : x = 0
      · simp [hx]
      · simp only [ne_eq, hx, not_false_eq_true, if_true]
        constructor
        · intro h2
          exfalso
          have : (x : Int) = 0 := by omega
          exact hx (by exact_mod_cast this)
        · intro h2
          simp [hx] at h2
    | cons y l =>
      have hy : y ≠ 0 := h y (by simp)
      have hl : ∀ b ∈ l, b ≠ 0 := fun b hb => h b (by simp [hb])
      simp only [strcmp, List.headD_cons, List.tail_cons, cstr, List.takeWhile_cons]
      by_cases hxy : x = y
      · subst hxy
        simp only [ne_eq, not_true_eq_false, if_false, hy]
        have := ih l hl
        simp only [cstr] at this
        rw [this]
        simp [hy]
      · simp only [ne_eq, hxy, not_false_eq_true, if_true]
        constructor
        · intro h2
          exfalso
          have : (x : Int) = y := by omega
          exact hxy (by exact_mod_cast this)
        · intro h2
          exfalso
          by_cases hx : x = 0
          · simp [hx] at h2
          · simp [hx] at h2
            exact hxy h2.1

theorem switch_text (name c : List Nat) (v : Value) (h : ∀ b ∈ name, b ≠ 0) :
    ConfigGetParam.switch 1 (some name) v c c.length =
      if name.length < c.length ∧ name <+: c then some (1, Value.str (c.drop name.length))
      else none := by
  by_cases hh : name.length < c.length ∧ name <+: c
  · simp [ConfigGetParam.switch, strArg_eq name c h, hh]
  · simp [ConfigGetParam.switch, strArg_eq name c h, hh]

theorem switch_num (name c : List Nat) (v : Value) (h : ∀ b ∈ name, b ≠ 0) :
    ConfigGetParam.switch 2 (some name) v c c.length =
      if name.length < c.length ∧ name <+: c then
        some (1, Value.num (toULong (ConfigParseNumber (c.drop name.length))))
      else none := by
  have h21 : ¬ ((2 : Int) = 1) := by decide
  by_cases hh : name.length < c.length ∧ name <+: c
  · simp [ConfigGetParam.switch, ConfigGetNumArg, strArg_eq name c h, hh]
  · simp [ConfigGetParam.switch, ConfigGetNumArg, strArg_eq name c h, hh]

theorem switch_bool (name c : List Nat) (v : Value) (h : ∀ b ∈ name, b ≠ 0) :
    ConfigGetParam.switch 3 (some name) v c c.length =
      if name.length < c.length ∧ name <+: c then
        if cstr (c.drop name.length) = strFalse then some (1, Value.int 0)
        else if cstr (c.drop name.length) = strTrue then some (1, Value.int 1)
        else none
      else none := by
  have h31 : ¬ ((3 : Int) = 1) := by decide
  have h32 : ¬ ((3 : Int) = 2) := by decide
  have hF : ∀ b ∈ strFalse, b ≠ 0 := by decide
  have hT : ∀ b ∈ strTrue, b ≠ 0 := by decide
  simp only [ConfigGetParam.switch, ConfigGetBoolArg, strArg_eq name c h, h31, h32, if_false,
    if_true]
  by_cases hh : name.length < c.length ∧ name <+: c
  · simp only [hh, and_self, if_true, strcmp_eq_zero _ _ hF, strcmp_eq_zero _ _ hT]
    by_cases h1 : cstr (c.drop name.length) = strFalse
    · simp [h1]
    · by_cases h2 : cstr (c.drop name.length) = strTrue
      · have hTF : ¬ strTrue = strFalse := by decide
        simp [h2, hTF]
      · simp [h1, h2]
  · simp [hh]

/-- With a type other than 1, 2 and 3 the `switch` returns 0. -/
theorem switch_default (ty : Int) (name : Option (List Nat)) (v : Value) (c : List Nat)
    (n : Nat) (h1 : ty ≠ 1) (h2 : ty ≠ 2) (h3 : ty ≠ 3) :
    ConfigGetParam.switch ty name v c n = some (0, v) := by
  simp [ConfigGetParam.switch, h1, h2, h3]

/-- A line that does not begin with the name is no match, whatever the type. -/
theorem switch_miss (ty : Int) (name c : List Nat) (v : Value) (h : ∀ b ∈ name, b ≠ 0)
    (hm : ¬ (name.length < c.length ∧ name <+: c)) :
    ConfigGetParam.switch ty (some name) v c c.length = none ∨
      ConfigGetParam.switch ty (some name) v c c.length = some (0, v) := by
  by_cases h1 : ty = 1
  · subst h1; left; rw [switch_text name c v h]; simp [hm]
  · by_cases h2 : ty = 2
    · subst h2; left; rw [switch_num name c v h]; simp [hm]
    · by_cases h3 : ty = 3
      · subst h3; left; rw [switch_bool name c v h]; simp [hm]
      · right; exact switch_default ty _ v c _ h1 h2 h3

theorem line_miss (ty : Int) (name buf : List Nat) (v : Value) (h : ∀ b ∈ name, b ≠ 0)
    (hm : ¬ (name.length < (rstrip buf).length ∧ name <+: rstrip buf)) :
    ConfigGetParam.line ty (some name) v buf = none ∨
      ConfigGetParam.line ty (some name) v buf = some (0, v) := by
  rw [line_eq]
  split
  · exact switch_miss ty name _ v h hm
  · exact Or.inl rfl

theorem line_result (ty : Int) (name : Option (List Nat)) (v : Value) (buf : List Nat) :
    ConfigGetParam.line ty name v buf = some (0, v) →
      ∀ r, orElse (ConfigGetParam.line ty name v buf) r = some (0, v) := by
  intro h r
  rw [h]
  rfl

/-- A miss followed by a lookup that finds nothing finds nothing. -/
theorem orElse_miss {o r : Option (Int × Value)} {v : Value}
    (ho : o = none ∨ o = some (0, v)) (hr : r = some (0, v)) : orElse o r = some (0, v) := by
  rcases ho with h | h <;> rw [h] <;> simp [orElse, hr]

/-! ## Files as sequences of lines -/

theorem scan_unlines (ty : Int) (name : Option (List Nat)) (v : Value) (d : List Nat)
    (ls : List (List Nat)) (X : List Nat)
    (h : ∀ l ∈ ls, (∀ b ∈ l, b ≠ 10) ∧ (beforeComment l).length ≤ 255 ∧
      ConfigGetParam.line ty name v (beforeComment l) = none) :
    scan ty name v d (unlines ls ++ X) = scan ty name v d X := by
  induction ls with
  | nil => rfl
  | cons l ls ih =>
    obtain ⟨h1, h2, h3⟩ := h l (by simp)
    simp only [unlines, List.append_assoc, List.cons_append]
    rw [scan_line ty name v d l _ h1 h2, h3]
    simp only [orElse]
    exact ih (fun e he => h e (by simp [he]))

/-- When every line misses, nothing is found. -/
theorem scan_unlines_miss (ty : Int) (name : Option (List Nat)) (v : Value) (d : List Nat)
    (ls : List (List Nat)) (X : List Nat)
    (h : ∀ l ∈ ls, (∀ b ∈ l, b ≠ 10) ∧ (beforeComment l).length ≤ 255 ∧
      (ConfigGetParam.line ty name v (beforeComment l) = none ∨
        ConfigGetParam.line ty name v (beforeComment l) = some (0, v)))
    (hX : scan ty name v d X = some (0, v)) :
    scan ty name v d (unlines ls ++ X) = some (0, v) := by
  induction ls with
  | nil => exact hX
  | cons l ls ih =>
    obtain ⟨h1, h2, h3⟩ := h l (by simp)
    simp only [unlines, List.append_assoc, List.cons_append]
    rw [scan_line ty name v d l _ h1 h2]
    exact orElse_miss h3 (ih (fun e he => h e (by simp [he])))

theorem captured_initial (l : List Nat) : captured l <+: l :=
  (rstrip_initial _).trans (List.takeWhile_prefix _)

theorem rstrip_eq_self (l : List Nat) (x : Nat) (hx : isBlank x = false) :
    rstrip (l ++ [x]) = l ++ [x] := by
  rw [rstrip_snoc]
  simp [hx]

/-- The last line of a file that does not end in a newline, when it does not
begin with the name. -/
theorem scan_last_miss (ty : Int) (name last : List Nat) (v : Value) (d : List Nat)
    (hname : ∀ b ∈ name, b ≠ 0) (hl : ∀ b ∈ last, b ≠ 10)
    (hlen : (beforeComment last).length ≤ 255) (hm : ¬ name <+: last) :
    scan ty (some name) v d last = some (0, v) := by
  obtain ⟨hclean, hsplit⟩ := line_split last hl
  have hbc : beforeComment last <+: last := List.takeWhile_prefix _
  have hend : ConfigGetParam.line ty (some name) v [255] = none := by
    rw [line_eq]
    simp [rstrip, isBlank]
  rcases Nat.lt_or_ge (beforeComment last).length 255 with hlt | hge
  · have hr : readLine 255 [] ⟨d, last, false⟩ = (beforeComment last ++ [255], ⟨d, [], true⟩) := by
      rcases hsplit with h | ⟨c, h, hc⟩
      · have := readLine_end 255 [] d (beforeComment last) hclean hlt
        rw [← h] at this
        rw [this, List.nil_append, ← h]
      · have := readLine_comment_end 255 [] d (beforeComment last) c hclean hc hlt
        rw [List.nil_append] at this
        rw [← this, ← h]
    rw [scan_step, hr]
    simp only [if_true]
    apply orElse_miss _ rfl
    apply line_miss ty name _ v hname
    rw [rstrip_eq_self _ _ (by decide)]
    rintro ⟨h1, h2⟩
    apply hm
    have h3 : name <+: beforeComment last :=
      List.prefix_of_prefix_length_le h2 (List.prefix_append _ _) (by simp at h1; omega)
    exact h3.trans hbc
  · have heq : (beforeComment last).length = 255 := le_antisymm hlen hge
    obtain ⟨t, ht, ht2⟩ : ∃ t, last = beforeComment last ++ t ∧
        (t = [] ∨ ∃ c, t = 35 :: c ∧ ∀ b ∈ c, b ≠ 10) := by
      rcases hsplit with h | ⟨c, h, hc⟩
      · exact ⟨[], by rw [List.append_nil]; exact h, Or.inl rfl⟩
      · exact ⟨35 :: c, h, Or.inr ⟨c, rfl, hc⟩⟩
    have hr : readLine 255 [] ⟨d, last, false⟩ = (beforeComment last, ⟨d, t, false⟩) := by
      have := readLine_full 255 [] d (beforeComment last) t hclean heq
      rw [List.nil_append, ← ht] at this
      exact this
    rw [scan_step, hr]
    simp only [Bool.false_eq_true, if_false]
    apply orElse_miss
    · apply line_miss ty name _ v hname
      rintro ⟨_, h2⟩
      exact hm ((h2.trans (rstrip_initial _)).trans hbc)
    · rcases ht2 with rfl | ⟨c, rfl, hc⟩
      · exact scan_nil ty _ v d
      · have hr2 : readLine 255 [] ⟨d, 35 :: c, false⟩ = ([255], ⟨d, [], true⟩) :=
          readLine_comment_end 255 [] d [] c (fun b hb => by simp at hb) hc (by simp)
        rw [scan_step, hr2, hend]
        rfl


/-! ## Numerals -/

theorem atoiDigits_digits (xs : List Nat) (hxs : ∀ x ∈ xs, x < 10) (acc : Int) (t : List Nat) :
    atoiDigits acc (xs.map (fun x => x + 48) ++ t) =
      atoiDigits (acc * 10 ^ xs.length + (Nat.ofDigits 10 xs.reverse : Nat)) t := by
  induction xs generalizing acc with
  | nil => simp
  | cons x xs ih =>
    have hx : x < 10 := hxs x (by simp)
    have hd : isdigit (x + 48) = true := by simp [isdigit]; omega
    rw [List.map_cons, List.cons_append]
    simp only [atoiDigits, hd, if_true]
    rw [ih (fun y hy => hxs y (by simp [hy]))]
    congr 1
    rw [List.reverse_cons, Nat.ofDigits_append, Nat.ofDigits_singleton, List.length_reverse,
      List.length_cons]
    push_cast
    ring

theorem decimal_digits (d : Nat) : ∀ b ∈ decimal d, 48 ≤ b ∧ b ≤ 57 := by
  intro b hb
  unfold decimal at hb
  split at hb
  · simp at hb; omega
  · simp only [List.mem_map, List.mem_reverse] at hb
    obtain ⟨x, hx, rfl⟩ := hb
    have := Nat.digits_lt_base (by norm_num : 1 < 10) hx
    omega

theorem decimal_ne_nil (d : Nat) : decimal d ≠ [] := by
  unfold decimal
  split
  · simp
  · rename_i h
    simp [Nat.digits_ne_nil_iff_ne_zero, h]

theorem decimal_length (d : Nat) (hd : d < 2147483648) : (decimal d).length ≤ 10 := by
  unfold decimal
  split
  · simp
  · rename_i h
    simp only [List.length_map, List.length_reverse]
    have h1 := Nat.base_pow_length_digits_le 10 d (by norm_num) h
    by_contra hc
    have h2 : 11 ≤ (Nat.digits 10 d).length := by omega
    have h3 : 10 ^ 11 ≤ 10 ^ (Nat.digits 10 d).length :=
      Nat.pow_le_pow_right (by norm_num) h2
    omega

theorem atoiDigits_decimal (d : Nat) (t : List Nat) :
    atoiDigits 0 (decimal d ++ t) = atoiDigits d t := by
  unfold decimal
  split
  · rename_i h
    subst h
    simp [atoiDigits, isdigit]
  · have := atoiDigits_digits (Nat.digits 10 d).reverse
      (fun x hx => Nat.digits_lt_base (by norm_num : 1 < 10) (List.mem_reverse.1 hx)) 0 t
    rw [this]
    simp [Nat.ofDigits_digits]

theorem wrap32_of_lt (x : Nat) (h : x < 2147483648) : wrap32 (x : Int) = x := by
  unfold wrap32
  omega

theorem toULong_of_nat (x : Nat) (h : x < 2147483648) : toULong (x : Int) = x := by
  unfold toULong
  omega

theorem clampLong_of_lt (x : Nat) (h : x < 2147483648) : clampLong (x : Int) = x := by
  unfold clampLong
  have h1 : ¬ (9223372036854775807 < (x : Int)) := by omega
  have h2 : ¬ ((x : Int) < -9223372036854775808) := by omega
  simp only [h1, h2, if_false]

/-- `atoi` on a decimal numeral followed by a byte that is not a digit. -/
theorem atoi_decimal (d : Nat) (t : List Nat) (hd : d < 2147483648)
    (ht : t = [] ∨ ∃ c r, t = c :: r ∧ isdigit c = false) :
    atoi (decimal d ++ t) = d := by
  obtain ⟨c, r, hc⟩ : ∃ c r, decimal d = c :: r := by
    cases h : decimal d with
    | nil => exact absurd h (decimal_ne_nil d)
    | cons c r => exact ⟨c, r, rfl⟩
  have hcd : 48 ≤ c ∧ c ≤ 57 := decimal_digits d c (by rw [hc]; simp)
  have hsp : isspace c = false := by
    simp [isspace]; omega
  have hdrop : (decimal d ++ t).dropWhile isspace = c :: (r ++ t) := by
    rw [hc, List.cons_append, List.dropWhile_cons]
    simp [hsp]
  have hval : atoiDigits 0 (c :: (r ++ t)) = d := by
    rw [← List.cons_append, ← hc, atoiDigits_decimal]
    rcases ht with rfl | ⟨c2, r2, rfl, h2⟩
    · rfl
    · simp [atoiDigits, h2]
  unfold atoi
  rw [hdrop]
  split
  · rename_i heq
    simp only [List.cons.injEq] at heq
    omega
  · rename_i heq
    simp only [List.cons.injEq] at heq
    omega
  · rw [hval, clampLong_of_lt d hd]
    exact wrap32_of_lt d hd

theorem parseLoop_digits (str ds t : List Nat) (i : Nat) (hds : ∀ b ∈ ds, 48 ≤ b ∧ b ≤ 57)
    (hi : i + ds.length ≤ 256) :
    ConfigParseNumber.loop str i (ds ++ t) = ConfigParseNumber.loop str (i + ds.length) t := by
  induction ds generalizing i with
  | nil => simp
  | cons b ds ih =>
    have hb := hds b (by simp)
    have h0 : ¬ (b = 0 ∨ 256 ≤ i) := by
      simp only [List.length_cons] at hi
      omega
    have h1 : ¬ (b = 107 ∨ b = 75) := by omega
    have h2 : ¬ b = 77 := by omega
    rw [List.cons_append]
    simp only [ConfigParseNumber.loop, h0, h1, h2, if_false]
    rw [ih (i + 1) (fun x hx => hds x (by simp [hx])) (by simp only [List.length_cons] at hi; omega)]
    simp only [List.length_cons]
    congr 1
    omega

/-- `ConfigParseNumber` on a numeral, alone or followed by `k`, `K` or `M`. -/
theorem parseNumber_decimal (d : Nat) :
    (d < 2147483648 → ConfigParseNumber (decimal d) = d) ∧
    (d * 1024 < 2147483648 → ConfigParseNumber (decimal d ++ [107]) = (d * 1024 : Nat) ∧
      ConfigParseNumber (decimal d ++ [75]) = (d * 1024 : Nat)) ∧
    (d * 1024 * 1024 < 2147483648 →
      ConfigParseNumber (decimal d ++ [77]) = (d * 1024 * 1024 : Nat)) := by
  have hdig := decimal_digits d
  refine ⟨fun hd => ?_, fun hd => ⟨?_, ?_⟩, fun hd => ?_⟩
  · have hlen := decimal_length d hd
    have h := parseLoop_digits (decimal d) (decimal d) [] 0 hdig (by omega)
    rw [List.append_nil] at h
    rw [ConfigParseNumber, h]
    simp only [ConfigParseNumber.loop]
    have := atoi_decimal d [] hd (Or.inl rfl)
    rw [List.append_nil] at this
    exact this
  · have hd2 : d < 2147483648 := by omega
    have hlen := decimal_length d hd2
    rw [ConfigParseNumber, parseLoop_digits _ (decimal d) [107] 0 hdig (by omega)]
    have h0 : ¬ ((107 : Nat) = 0 ∨ 256 ≤ (decimal d).length) := by omega
    simp only [ConfigParseNumber.loop, h0, if_false, true_or, if_true, Nat.zero_add,
      List.take_left']
    have := atoi_decimal d [] hd2 (Or.inl rfl)
    rw [List.append_nil] at this
    rw [this]
    have e : (d : Int) * 1024 = ((d * 1024 : Nat) : Int) := by push_cast; rfl
    rw [e]
    exact wrap32_of_lt (d * 1024) hd
  · have hd2 : d < 2147483648 := by omega
    have hlen := decimal_length d hd2
    rw [ConfigParseNumber, parseLoop_digits _ (decimal d) [75] 0 hdig (by omega)]
    have h0 : ¬ ((75 : Nat) = 0 ∨ 256 ≤ (decimal d).length) := by omega
    simp only [ConfigParseNumber.loop, h0, if_false, or_true, if_true, Nat.zero_add,
      List.take_left']
    have := atoi_decimal d [] hd2 (Or.inl rfl)
    rw [List.append_nil] at this
    rw [this]
    have e : (d : Int) * 1024 = ((d * 1024 : Nat) : Int) := by push_cast; rfl
    rw [e]
    exact wrap32_of_lt (d * 1024) hd
  · have hd2 : d < 2147483648 := by omega
    have hlen := decimal_length d hd2
    rw [ConfigParseNumber, parseLoop_digits _ (decimal d) [77] 0 hdig (by omega)]
    have h0 : ¬ ((77 : Nat) = 0 ∨ 256 ≤ (decimal d).length) := by omega
    have h1 : ¬ ((77 : Nat) = 107 ∨ (77 : Nat) = 75) := by omega
    simp only [ConfigParseNumber.loop, h0, h1, if_false, if_true, Nat.zero_add,
      List.take_left']
    have := atoi_decimal d [] hd2 (Or.inl rfl)
    rw [List.append_nil] at this
    rw [this]
    have e : (d : Int) * 1024 * 1024 = ((d * 1024 * 1024 : Nat) : Int) := by push_cast; rfl
    rw [e]
    exact wrap32_of_lt (d * 1024 * 1024) hd


/-! ## Lines that match -/

theorem line_text (name buf : List Nat) (v : Value) (h : ∀ b ∈ name, b ≠ 0) :
    ConfigGetParam.line 1 (some name) v buf =
      if Hit name (rstrip buf) then some (1, Value.str ((rstrip buf).drop name.length))
      else none := by
  rw [line_eq, switch_text name _ v h]
  unfold Hit
  by_cases h2 : 2 ≤ (rstrip buf).length
  · simp [h2]
  · simp [h2]

theorem line_num (name buf : List Nat) (v : Value) (h : ∀ b ∈ name, b ≠ 0) :
    ConfigGetParam.line 2 (some name) v buf =
      if Hit name (rstrip buf) then
        some (1, Value.num (toULong (ConfigParseNumber ((rstrip buf).drop name.length))))
      else none := by
  rw [line_eq, switch_num name _ v h]
  unfold Hit
  by_cases h2 : 2 ≤ (rstrip buf).length
  · simp [h2]
  · simp [h2]

theorem line_bool (name buf : List Nat) (v : Value) (h : ∀ b ∈ name, b ≠ 0) :
    ConfigGetParam.line 3 (some name) v buf =
      if Hit name (rstrip buf) then
        if cstr ((rstrip buf).drop name.length) = strFalse then some (1, Value.int 0)
        else if cstr ((rstrip buf).drop name.length) = strTrue then some (1, Value.int 1)
        else none
      else none := by
  rw [line_eq, switch_bool name _ v h]
  unfold Hit
  by_cases h2 : 2 ≤ (rstrip buf).length
  · simp [h2]
  · simp [h2]

theorem cstr_length_le (r : List Nat) : (cstr r).length ≤ r.length :=
  (List.takeWhile_prefix _).length_le

/-- The boolean of a line, as `boolValue` states it, is what the loop body
computes on the line. -/
theorem line_boolValue (name l : List Nat) (v : Value) (h : ∀ b ∈ name, b ≠ 0) :
    ConfigGetParam.line 3 (some name) v (beforeComment l) =
      (boolValue name l).map (fun b => (1, Value.int b)) := by
  rw [line_bool name _ v h]
  have hc : rstrip (beforeComment l) = captured l := rfl
  rw [hc]
  unfold boolValue
  by_cases hp : name <+: captured l
  · have hlen : ∀ lit : List Nat, 4 ≤ lit.length →
        cstr ((captured l).drop name.length) = lit → Hit name (captured l) := by
      intro lit h4 he
      have h1 := cstr_length_le ((captured l).drop name.length)
      rw [he, List.length_drop] at h1
      exact ⟨by omega, by omega, hp⟩
    by_cases hF : cstr ((captured l).drop name.length) = strFalse
    · have := hlen strFalse (by decide) hF
      simp [hp, hF, this]
    · by_cases hT : cstr ((captured l).drop name.length) = strTrue
      · have := hlen strTrue (by decide) hT
        have hTF : ¬ strTrue = strFalse := by decide
        simp [hp, hT, hTF, this]
      · simp [hp, hF, hT]
  · have : ¬ Hit name (captured l) := fun hh => hp hh.2.2
    simp [hp, this]

theorem beforeComment_eq_self (l : List Nat) (h : ∀ b ∈ l, b ≠ 35) : beforeComment l = l := by
  rw [beforeComment, List.takeWhile_eq_self_iff]
  intro x hx
  simpa using h x hx

theorem beforeComment_append (a w : List Nat) (h : ∀ b ∈ a, b ≠ 35) :
    beforeComment (a ++ w) = a ++ beforeComment w := by
  unfold beforeComment
  exact List.takeWhile_append_of_pos (fun x hx => by simpa using h x hx)

theorem rstrip_of_getLast (l : List Nat) (h : ∀ x, l.getLast? = some x → isBlank x = false) :
    rstrip l = l := by
  rcases List.eq_nil_or_concat l with rfl | ⟨L, b, rfl⟩
  · rfl
  · rw [List.concat_eq_append] at h ⊢
    exact rstrip_eq_self L b (h b (List.getLast?_concat L))

theorem rstrip_append (a b : List Nat) :
    rstrip (a ++ b) = if rstrip b = [] then rstrip a else a ++ rstrip b := by
  induction b using List.reverseRecOn with
  | nil => simp [rstrip]
  | append_singleton init y ih =>
    rw [← List.append_assoc, rstrip_snoc, rstrip_snoc]
    by_cases hy : isBlank y = true
    · simp only [hy, if_true]
      exact ih
    · simp [hy]

/-- The captured form of a line that begins with a name free of `#` and not
ending in a space or NUL. -/
theorem captured_name_append (name w : List Nat) (h35 : ∀ b ∈ name, b ≠ 35)
    (hlast : ∀ x, name.getLast? = some x → isBlank x = false) :
    captured (name ++ w) = name ++ captured w := by
  unfold captured
  rw [beforeComment_append name w h35, rstrip_append, rstrip_of_getLast name hlast]
  split
  · rename_i h
    rw [h, List.append_nil]
  · rfl

/-- A line in front of which every line misses, and which itself decides. -/
theorem scan_first (ty : Int) (name : Option (List Nat)) (v : Value) (ls : List (List Nat))
    (l X : List Nat) (r : Int × Value)
    (hls : ∀ e ∈ ls, (∀ b ∈ e, b ≠ 10) ∧ (beforeComment e).length ≤ 255 ∧
      ConfigGetParam.line ty name v (beforeComment e) = none)
    (hl : ∀ b ∈ l, b ≠ 10) (hlen : (beforeComment l).length ≤ 255)
    (hr : ConfigGetParam.line ty name v (beforeComment l) = some r) :
    scan ty name v [] (unlines ls ++ (l ++ 10 :: X)) = some r := by
  rw [scan_unlines ty name v [] ls _ hls, scan_line ty name v [] l X hl hlen, hr]
  rfl

theorem rstrip_spaces (k : Nat) : rstrip (List.replicate k 32) = [] := by
  unfold rstrip
  rw [List.reverse_eq_nil_iff, List.dropWhile_eq_nil_iff]
  intro x hx
  rw [List.mem_reverse] at hx
  rw [List.eq_of_mem_replicate hx]
  decide

/-- A line of spaces is passed over, however long it is. -/
theorem scan_spaces (ty : Int) (name : Option (List Nat)) (v : Value) (n : Nat) :
    ∀ k, k ≤ n → ∀ d X,
      scan ty name v d (List.replicate k 32 ++ 10 :: X) = scan ty name v d X := by
  induction n using Nat.strong_induction_on with
  | _ n ih =>
    intro k hk d X
    have hmem : ∀ j, ∀ b ∈ List.replicate j 32, b ≠ 10 ∧ b ≠ 35 := by
      intro j b hb
      rw [List.eq_of_mem_replicate hb]
      decide
    have hline : ∀ j, ConfigGetParam.line ty name v (List.replicate j 32) = none := by
      intro j
      rw [line_eq, rstrip_spaces]
      rfl
    rcases Nat.lt_or_ge 255 k with hgt | hle
    · have hsplit : List.replicate k 32 = List.replicate 255 32 ++ List.replicate (k - 255) 32 := by
        have h : k = 255 + (k - 255) := by omega
        calc List.replicate k 32 = List.replicate (255 + (k - 255)) 32 := by rw [← h]
          _ = List.replicate 255 32 ++ List.replicate (k - 255) 32 := List.replicate_add _ _ _
      have hr : readLine 255 [] ⟨d, List.replicate k 32 ++ 10 :: X, false⟩ =
          (List.replicate 255 32, ⟨d, List.replicate (k - 255) 32 ++ 10 :: X, false⟩) := by
        have := readLine_full 255 [] d (List.replicate 255 32)
          (List.replicate (k - 255) 32 ++ 10 :: X) (hmem 255) (List.length_replicate _ _)
        rw [List.nil_append, ← List.append_assoc, ← hsplit] at this
        exact this
      rw [scan_step, hr, hline]
      simp only [orElse, Bool.false_eq_true, if_false]
      exact ih (k - 255) (by omega) (k - 255) (le_refl _) d X
    · have hbc : beforeComment (List.replicate k 32) = List.replicate k 32 :=
        beforeComment_eq_self _ (fun b hb => (hmem k b hb).2)
      rw [scan_line ty name v d _ X (fun b hb => (hmem k b hb).1)
        (by rw [hbc, List.length_replicate]; exact hle), hbc, hline]
      rfl

/-! ## Lookups that find, and lookups that do not -/

/-- In a file whose lines do not begin with the name nothing is found. -/
theorem scan_absent (ty : Int) (name : List Nat) (v : Value) (ls : List (List Nat))
    (last : List Nat) (hname : ∀ b ∈ name, b ≠ 0)
    (hls : ∀ l ∈ ls, (∀ b ∈ l, b ≠ 10) ∧ (beforeComment l).length ≤ 255 ∧ ¬ name <+: l)
    (hlast : (∀ b ∈ last, b ≠ 10) ∧ (beforeComment last).length ≤ 255 ∧ ¬ name <+: last) :
    scan ty (some name) v [] (unlines ls ++ last) = some (0, v) :=
  scan_unlines_miss ty (some name) v [] ls last
    (fun l hl => ⟨(hls l hl).1, (hls l hl).2.1,
      line_miss ty name _ v hname
        (fun hh => (hls l hl).2.2 (hh.2.trans (captured_initial l)))⟩)
    (scan_last_miss ty name last v [] hname hlast.1 hlast.2.1 hlast.2.2)

/-- The first line that begins with the name, when its text is free of `#`,
NUL and a trailing space: the Text lookup stores the text, the Integer
lookup its number. -/
theorem scan_clean_line (ls : List (List Nat)) (name value post : List Nat) (v : Value)
    (hname : name ≠ [] ∧ ∀ b ∈ name, b ≠ 0 ∧ b ≠ 10 ∧ b ≠ 35)
    (hvalue : value ≠ [] ∧ ∀ b ∈ value, b ≠ 0 ∧ b ≠ 10 ∧ b ≠ 35)
    (hend : value.getLast? ≠ some 32)
    (hlen : name.length + value.length ≤ 255)
    (hls : ∀ l ∈ ls, (∀ b ∈ l, b ≠ 10) ∧ (beforeComment l).length ≤ 255 ∧ ¬ name <+: l) :
    scan 1 (some name) v [] (unlines ls ++ (name ++ value ++ 10 :: post))
      = some (1, Value.str value) ∧
    scan 2 (some name) v [] (unlines ls ++ (name ++ value ++ 10 :: post))
      = some (1, Value.num (toULong (ConfigParseNumber value))) := by
  have hn0 : ∀ b ∈ name, b ≠ 0 := fun b hb => (hname.2 b hb).1
  have hl10 : ∀ b ∈ name ++ value, b ≠ 10 := by
    intro b hb
    rcases List.mem_append.1 hb with h | h
    · exact (hname.2 b h).2.1
    · exact (hvalue.2 b h).2.1
  have hl35 : ∀ b ∈ name ++ value, b ≠ 35 := by
    intro b hb
    rcases List.mem_append.1 hb with h | h
    · exact (hname.2 b h).2.2
    · exact (hvalue.2 b h).2.2
  have hbc : beforeComment (name ++ value) = name ++ value := beforeComment_eq_self _ hl35
  have hrs : rstrip (name ++ value) = name ++ value := by
    apply rstrip_of_getLast
    intro x hx
    obtain ⟨y, hy⟩ : ∃ y, value.getLast? = some y := by
      cases h : value.getLast? with
      | none => exact absurd (List.getLast?_eq_none_iff.1 h) hvalue.1
      | some y => exact ⟨y, rfl⟩
    rw [List.getLast?_append, hy] at hx
    simp only [Option.or_some, Option.some.injEq] at hx
    subst hx
    have h0 : y ≠ 0 := (hvalue.2 y (List.mem_of_getLast?_eq_some hy)).1
    have h32 : y ≠ 32 := fun h => hend (by rw [hy, h])
    simp [isBlank, h0, h32]
  have hlen1 : 0 < name.length := List.length_pos.2 hname.1
  have hlen2 : 0 < value.length := List.length_pos.2 hvalue.1
  have hhit : Hit name (name ++ value) :=
    ⟨by rw [List.length_append]; omega, by rw [List.length_append]; omega,
      List.prefix_append _ _⟩
  have hmiss : ∀ e ∈ ls, ¬ Hit name (rstrip (beforeComment e)) :=
    fun e he hh => (hls e he).2.2 (hh.2.2.trans (captured_initial e))
  have hfile : unlines ls ++ (name ++ value ++ 10 :: post)
      = unlines ls ++ ((name ++ value) ++ 10 :: post) := by
    simp
  rw [hfile]
  constructor
  · apply scan_first 1 (some name) v ls (name ++ value) post _ _ hl10
      (by rw [hbc, List.length_append]; exact hlen)
    · rw [hbc, line_text name _ v hn0, hrs]
      simp [hhit]
    · intro e he
      refine ⟨(hls e he).1, (hls e he).2.1, ?_⟩
      rw [line_text name _ v hn0]
      simp [hmiss e he]
  · apply scan_first 2 (some name) v ls (name ++ value) post _ _ hl10
      (by rw [hbc, List.length_append]; exact hlen)
    · rw [hbc, line_num name _ v hn0, hrs]
      simp [hhit]
    · intro e he
      refine ⟨(hls e he).1, (hls e he).2.1, ?_⟩
      rw [line_num name _ v hn0]
      simp [hmiss e he]


/-- The Integer lookup of `n=` on the single line `n=` followed by a numeral
and a suffix. -/
theorem scan_numeral (d : Nat) (sfx : List Nat) (v : Value) (hd : d < 2147483648)
    (hs : sfx = [] ∨ sfx = [107] ∨ sfx = [75] ∨ sfx = [77]) :
    result (bytes "n=" ++ decimal d ++ (sfx ++ [10])) 2 (some (bytes "n=")) (some v)
      = some (1, some (Value.num (toULong (ConfigParseNumber (decimal d ++ sfx))))) := by
  have hdig := decimal_digits d
  have hlen := decimal_length d hd
  have hne := decimal_ne_nil d
  have hsfx : ∀ b ∈ sfx, b = 107 ∨ b = 75 ∨ b = 77 := by
    intro b hb
    rcases hs with h | h | h | h <;> rw [h] at hb <;> simp at hb <;> omega
  have hslen : sfx.length ≤ 1 := by
    rcases hs with h | h | h | h <;> rw [h] <;> simp
  have hval : ∀ b ∈ decimal d ++ sfx, b ≠ 0 ∧ b ≠ 10 ∧ b ≠ 35 ∧ b ≠ 32 := by
    intro b hb
    rcases List.mem_append.1 hb with h | h
    · have := hdig b h
      omega
    · have := hsfx b h
      omega
  have h := (scan_clean_line [] (bytes "n=") (decimal d ++ sfx) [] v (by decide)
    ⟨by simp [hne], fun b hb => ⟨(hval b hb).1, (hval b hb).2.1, (hval b hb).2.2.1⟩⟩
    (fun hl => (hval 32 (List.mem_of_getLast?_eq_some hl)).2.2.2 rfl)
    (by
      have : (bytes "n=").length = 2 := by decide
      rw [this, List.length_append]
      omega)
    (fun l hl => by simp at hl)).2
  rw [result_some _ _ _ _ []]
  have hfile : bytes "n=" ++ decimal d ++ (sfx ++ [10])
      = unlines [] ++ (bytes "n=" ++ (decimal d ++ sfx) ++ 10 :: []) := by
    simp [unlines]
  rw [hfile, h]
  rfl

/-! ## Properties of every scan -/

/-- Two scans of the same bytes run in lockstep: a relation that holds when
both reach the end of the file and is kept by every line holds of their
results. -/
theorem scan_rel {R : Option (Int × Value) → Option (Int × Value) → Prop}
    (ty1 ty2 : Int) (n1 n2 : Option (List Nat)) (v1 v2 : Value)
    (hend : R (some (0, v1)) (some (0, v2)))
    (hline : ∀ buf r1 r2, R r1 r2 →
      R (orElse (ConfigGetParam.line ty1 n1 v1 buf) r1)
        (orElse (ConfigGetParam.line ty2 n2 v2 buf) r2))
    (d : List Nat) (n : Nat) :
    ∀ rest : List Nat, rest.length ≤ n →
      R (scan ty1 n1 v1 d rest) (scan ty2 n2 v2 d rest) := by
  induction n using Nat.strong_induction_on with
  | _ n ih =>
    intro rest hn
    rw [scan_step ty1, scan_step ty2]
    apply hline
    have hp : (readLine 255 [] ⟨d, rest, false⟩).2.eof = true ∨
        (readLine 255 [] ⟨d, rest, false⟩).2.rest.length < rest.length :=
      readLine_progress 254 [] ⟨d, rest, false⟩ rfl
    cases he : (readLine 255 [] ⟨d, rest, false⟩).2.eof with
    | true =>
      simp only [if_true]
      exact hend
    | false =>
      rw [he] at hp
      have hlt : (readLine 255 [] ⟨d, rest, false⟩).2.rest.length < rest.length := by
        simpa using hp
      simp only [Bool.false_eq_true, if_false]
      exact ih _ (by omega) _ (le_refl _)

theorem strArg_cases (name : Option (List Nat)) (arg : List Nat) (arglen : Nat) :
    ConfigGetStrArg name arg arglen = (0, none) ∨
      ∃ s, ConfigGetStrArg name arg arglen = (1, some s) := by
  unfold ConfigGetStrArg
  cases name with
  | none => exact Or.inl rfl
  | some nm =>
    simp only
    split
    · exact Or.inl rfl
    · split
      · exact Or.inl rfl
      · split
        · exact Or.inr ⟨_, rfl⟩
        · exact Or.inl rfl

/-- What the three supported types do with one line, side by side: either no
one matches, or the Text lookup stores a text, the Integer lookup its number
and the Boolean lookup, if the text is a literal, its value. -/
theorem switch_cases (name : Option (List Nat)) (v1 v2 v3 : Value) (arg : List Nat)
    (arglen : Nat) :
    (ConfigGetParam.switch 1 name v1 arg arglen = none ∧
      ConfigGetParam.switch 2 name v2 arg arglen = none ∧
      ConfigGetParam.switch 3 name v3 arg arglen = none) ∨
    ∃ s, ConfigGetParam.switch 1 name v1 arg arglen = some (1, Value.str s) ∧
      ConfigGetParam.switch 2 name v2 arg arglen
        = some (1, Value.num (toULong (ConfigParseNumber s))) ∧
      (ConfigGetParam.switch 3 name v3 arg arglen = none ∨
        ∃ b, ConfigGetParam.switch 3 name v3 arg arglen = some (1, Value.int b)) := by
  have h21 : ¬ ((2 : Int) = 1) := by decide
  have h31 : ¬ ((3 : Int) = 1) := by decide
  have h32 : ¬ ((3 : Int) = 2) := by decide
  rcases strArg_cases name arg arglen with h | ⟨s, h⟩
  · left
    simp [ConfigGetParam.switch, ConfigGetNumArg, ConfigGetBoolArg, h]
  · right
    refine ⟨s, ?_, ?_, ?_⟩
    · simp [ConfigGetParam.switch, h]
    · simp [ConfigGetParam.switch, ConfigGetNumArg, h]
    · simp only [ConfigGetParam.switch, ConfigGetBoolArg, h, h31, h32, if_false, if_true]
      by_cases hF : strcmp s strFalse = 0
      · right
        exact ⟨0, by simp [hF]⟩
      · by_cases hT : strcmp s strTrue = 0
        · right
          exact ⟨1, by simp [hF, hT]⟩
        · left
          simp [hF, hT]

/-- A line gives no result, the result 0 with the object untouched, or the
result 1; and the object the caller passed plays no part in which. -/
theorem line_cases (ty : Int) (name : Option (List Nat)) (v w : Value) (buf : List Nat) :
    (ConfigGetParam.line ty name v buf = none ∧ ConfigGetParam.line ty name w buf = none) ∨
    (ConfigGetParam.line ty name v buf = some (0, v) ∧
      ConfigGetParam.line ty name w buf = some (0, w)) ∨
    ∃ x, ConfigGetParam.line ty name v buf = some (1, x) ∧
      ConfigGetParam.line ty name w buf = some (1, x) := by
  rw [line_eq, line_eq]
  by_cases h2 : 2 ≤ (rstrip buf).length
  · simp only [h2, if_true]
    by_cases h1 : ty = 1
    · subst h1
      rcases switch_cases name v v v (rstrip buf) (rstrip buf).length with ⟨a, _, _⟩ | ⟨s, a, _, _⟩
      · rcases switch_cases name w w w (rstrip buf) (rstrip buf).length with
          ⟨b, _, _⟩ | ⟨t, b, _, _⟩
        · exact Or.inl ⟨a, b⟩
        · have h : ConfigGetParam.switch 1 name v (rstrip buf) (rstrip buf).length
              = ConfigGetParam.switch 1 name w (rstrip buf) (rstrip buf).length := by
            simp [ConfigGetParam.switch]
          rw [a, b] at h
          cases h
      · have h : ConfigGetParam.switch 1 name w (rstrip buf) (rstrip buf).length
            = ConfigGetParam.switch 1 name v (rstrip buf) (rstrip buf).length := by
          simp [ConfigGetParam.switch]
        exact Or.inr (Or.inr ⟨_, a, by rw [h, a]⟩)
    · by_cases h2' : ty = 2
      · subst h2'
        have h : ConfigGetParam.switch 2 name w (rstrip buf) (rstrip buf).length
            = ConfigGetParam.switch 2 name v (rstrip buf) (rstrip buf).length := by
          simp [ConfigGetParam.switch]
        rcases switch_cases name v v v (rstrip buf) (rstrip buf).length with
          ⟨_, a, _⟩ | ⟨s, _, a, _⟩
        · exact Or.inl ⟨a, by rw [h, a]⟩
        · exact Or.inr (Or.inr ⟨_, a, by rw [h, a]⟩)
      · by_cases h3 : ty = 3
        · subst h3
          have h : ConfigGetParam.switch 3 name w (rstrip buf) (rstrip buf).length
              = ConfigGetParam.switch 3 name v (rstrip buf) (rstrip buf).length := by
            simp [ConfigGetParam.switch]
          rcases switch_cases name v v v (rstrip buf) (rstrip buf).length with
            ⟨_, _, a⟩ | ⟨s, _, _, a | ⟨b, a⟩⟩
          · exact Or.inl ⟨a, by rw [h, a]⟩
          · exact Or.inl ⟨a, by rw [h, a]⟩
          · exact Or.inr (Or.inr ⟨_, a, by rw [h, a]⟩)
        · right; left
          exact ⟨switch_default ty name v _ _ h1 h2' h3, switch_default ty name w _ _ h1 h2' h3⟩
  · simp [h2]

theorem result_scan (content : List Nat) (ty : Int) (name : Option (List Nat)) (v : Value)
    (r : Int) (x : Value) (h : scan ty name v [] content = some (r, x)) :
    result content ty name (some v) = some (r, some x) := by
  rw [result_some _ _ _ _ [], h]
  rfl

/-- A scan ends with 0 and the object of the caller untouched, or with 1. -/
theorem scan_cases (ty : Int) (name : Option (List Nat)) (v : Value) (d rest : List Nat) :
    scan ty name v d rest = some (0, v) ∨ ∃ x, scan ty name v d rest = some (1, x) := by
  refine scan_rel (R := fun r _ => r = some (0, v) ∨ ∃ x, r = some (1, x))
    ty ty name name v v (Or.inl rfl) ?_ d rest.length rest (le_refl _)
  intro buf r1 _ hr
  rcases line_cases ty name v v buf with ⟨h, _⟩ | ⟨h, _⟩ | ⟨x, h, _⟩
  · rw [h]; exact hr
  · rw [h]; exact Or.inl rfl
  · rw [h]; exact Or.inr ⟨x, rfl⟩

/-- The object the caller passes does not influence a scan: with another
object the scan ends in the same way, and stores the same when it finds. -/
theorem scan_value (ty : Int) (name : Option (List Nat)) (v w : Value) (d rest : List Nat) :
    (scan ty name v d rest = some (0, v) ∧ scan ty name w d rest = some (0, w)) ∨
      ∃ x, scan ty name v d rest = some (1, x) ∧ scan ty name w d rest = some (1, x) := by
  refine scan_rel (R := fun r1 r2 => (r1 = some (0, v) ∧ r2 = some (0, w)) ∨
      ∃ x, r1 = some (1, x) ∧ r2 = some (1, x))
    ty ty name name v w (Or.inl ⟨rfl, rfl⟩) ?_ d rest.length rest (le_refl _)
  intro buf r1 r2 hr
  rcases line_cases ty name v w buf with ⟨h1, h2⟩ | ⟨h1, h2⟩ | ⟨x, h1, h2⟩
  · rw [h1, h2]; exact hr
  · rw [h1, h2]; exact Or.inl ⟨rfl, rfl⟩
  · rw [h1, h2]; exact Or.inr ⟨x, rfl, rfl⟩

/-- A scan in which every line gives nothing or 0 ends with 0. -/
theorem scan_zero (ty : Int) (name : Option (List Nat)) (v : Value) (d rest : List Nat)
    (h : ∀ buf, ConfigGetParam.line ty name v buf = none ∨
      ConfigGetParam.line ty name v buf = some (0, v)) :
    scan ty name v d rest = some (0, v) := by
  refine scan_rel (R := fun r _ => r = some (0, v))
    ty ty name name v v rfl ?_ d rest.length rest (le_refl _)
  intro buf r1 _ hr
  exact orElse_miss (h buf) hr

theorem line_default (ty : Int) (name : Option (List Nat)) (v : Value) (buf : List Nat)
    (h1 : ty ≠ 1) (h2 : ty ≠ 2) (h3 : ty ≠ 3) :
    ConfigGetParam.line ty name v buf = none ∨
      ConfigGetParam.line ty name v buf = some (0, v) := by
  rw [line_eq]
  split
  · exact Or.inr (switch_default ty name v _ _ h1 h2 h3)
  · exact Or.inl rfl

theorem line_null (ty : Int) (v : Value) (buf : List Nat) :
    ConfigGetParam.line ty none v buf = none ∨
      ConfigGetParam.line ty none v buf = some (0, v) := by
  rw [line_eq]
  split
  · by_cases h1 : ty = 1
    · left; simp [ConfigGetParam.switch, ConfigGetStrArg, h1]
    · by_cases h2 : ty = 2
      · left; simp [ConfigGetParam.switch, ConfigGetNumArg, ConfigGetStrArg, h2]
      · by_cases h3 : ty = 3
        · left; simp [ConfigGetParam.switch, ConfigGetBoolArg, ConfigGetStrArg, h3]
        · exact Or.inr (switch_default ty none v _ _ h1 h2 h3)
  · exact Or.inl rfl

/-- The Integer lookup follows the Text lookup line by line. -/
theorem scan_text_num (name : Option (List Nat)) (v1 v2 : Value) (d rest : List Nat) :
    (scan 1 name v1 d rest = some (0, v1) ∧ scan 2 name v2 d rest = some (0, v2)) ∨
      ∃ s, scan 1 name v1 d rest = some (1, Value.str s) ∧
        scan 2 name v2 d rest = some (1, Value.num (toULong (ConfigParseNumber s))) := by
  refine scan_rel (R := fun r1 r2 => (r1 = some (0, v1) ∧ r2 = some (0, v2)) ∨
      ∃ s, r1 = some (1, Value.str s) ∧
        r2 = some (1, Value.num (toULong (ConfigParseNumber s))))
    1 2 name name v1 v2 (Or.inl ⟨rfl, rfl⟩) ?_ d rest.length rest (le_refl _)
  intro buf r1 r2 hr
  rw [line_eq, line_eq]
  split
  · rcases switch_cases name v1 v2 v2 (rstrip buf) (rstrip buf).length with
      ⟨h1, h2, _⟩ | ⟨s, h1, h2, _⟩
    · rw [h1, h2]; exact hr
    · rw [h1, h2]; exact Or.inr ⟨s, rfl, rfl⟩
  · exact hr

/-- Where the Boolean lookup finds, the Text lookup finds. -/
theorem scan_bool_text (name : Option (List Nat)) (v3 v1 : Value) (d rest : List Nat) :
    scan 3 name v3 d rest = some (0, v3) ∨
      ∃ b s, scan 3 name v3 d rest = some (1, Value.int b) ∧
        scan 1 name v1 d rest = some (1, Value.str s) := by
  refine scan_rel (R := fun r3 r1 => r3 = some (0, v3) ∨
      ∃ b s, r3 = some (1, Value.int b) ∧ r1 = some (1, Value.str s))
    3 1 name name v3 v1 (Or.inl rfl) ?_ d rest.length rest (le_refl _)
  intro buf r3 r1 hr
  rw [line_eq, line_eq]
  split
  · rcases switch_cases name v1 v1 v3 (rstrip buf) (rstrip buf).length with
      ⟨h1, _, h3⟩ | ⟨s, h1, _, h3 | ⟨b, h3⟩⟩
    · rw [h1, h3]; exact hr
    · rw [h1, h3]
      rcases hr with h | ⟨b, _, h, _⟩
      · exact Or.inl h
      · exact Or.inr ⟨b, s, h, rfl⟩
    · rw [h1, h3]; exact Or.inr ⟨b, s, rfl, rfl⟩
  · exact hr

/-- The stream the loop leaves is a stream over the same file. -/
theorem loop_data (ty : Int) (name : Option (List Nat)) (v : Value) (fuel : Nat) (f : FILE)
    (r : Int × Value × FILE) (h : ConfigGetParam.loop ty name v fuel f = some r) :
    r.2.2.data = f.data := by
  have hs := loop_setData ty name v fuel f f.data
  have hf : f.setData f.data = f := rfl
  rw [hf, h] at hs
  simp only [Option.map_some', Option.some.injEq] at hs
  have h2 := congrArg (fun t => t.2.2.data) hs
  simp only [FILE.setData] at h2
  exact h2

/-! ## Numbers with a suffix, and texts that are no numbers -/

theorem parseLoop_plain (str ds t : List Nat) (i : Nat)
    (hds : ∀ b ∈ ds, b ≠ 0 ∧ b ≠ 107 ∧ b ≠ 75 ∧ b ≠ 77) (hi : i + ds.length ≤ 256) :
    ConfigParseNumber.loop str i (ds ++ t) = ConfigParseNumber.loop str (i + ds.length) t := by
  induction ds generalizing i with
  | nil => simp
  | cons b ds ih =>
    have hb := hds b (by simp)
    have h0 : ¬ (b = 0 ∨ 256 ≤ i) := by
      simp only [List.length_cons] at hi
      omega
    have h1 : ¬ (b = 107 ∨ b = 75) := by omega
    have h2 : ¬ b = 77 := hb.2.2.2
    rw [List.cons_append]
    simp only [ConfigParseNumber.loop, h0, h1, h2, if_false]
    rw [ih (i + 1) (fun x hx => hds x (by simp [hx])) (by simp only [List.length_cons] at hi; omega)]
    simp only [List.length_cons]
    congr 1
    omega

/-- `ConfigParseNumber` stops at the first suffix character. -/
theorem parseNumber_suffix (p rest : List Nat)
    (hp : ∀ b ∈ p, b ≠ 0 ∧ b ≠ 107 ∧ b ≠ 75 ∧ b ≠ 77) (hlen : p.length < 256) :
    ConfigParseNumber (p ++ 107 :: rest) = wrap32 (atoi p * 1024) ∧
    ConfigParseNumber (p ++ 75 :: rest) = wrap32 (atoi p * 1024) ∧
    ConfigParseNumber (p ++ 77 :: rest) = wrap32 (atoi p * 1024 * 1024) := by
  have h0 : ∀ c : Nat, c ≠ 0 → ¬ (c = 0 ∨ 256 ≤ p.length) := by
    intro c hc
    omega
  have h1 : ¬ ((77 : Nat) = 107 ∨ (77 : Nat) = 75) := by omega
  refine ⟨?_, ?_, ?_⟩
  · rw [ConfigParseNumber, parseLoop_plain _ p _ 0 hp (by omega)]
    simp only [ConfigParseNumber.loop, Nat.zero_add, h0 107 (by decide), if_false, true_or,
      if_true, List.take_left']
  · rw [ConfigParseNumber, parseLoop_plain _ p _ 0 hp (by omega)]
    simp only [ConfigParseNumber.loop, Nat.zero_add, h0 75 (by decide), if_false, or_true,
      if_true, List.take_left']
  · rw [ConfigParseNumber, parseLoop_plain _ p _ 0 hp (by omega)]
    simp only [ConfigParseNumber.loop, Nat.zero_add, h0 77 (by decide), h1, if_false,
      if_true, List.take_left']

theorem dropWhile_initial (f : Nat → Bool) (p r : List Nat) (h : p <+: r) :
    p.dropWhile f <+: r.dropWhile f := by
  induction p generalizing r with
  | nil => simp
  | cons a p ih =>
    cases r with
    | nil => simp at h
    | cons b r =>
      rw [List.cons_prefix_cons] at h
      obtain ⟨hab, hpr⟩ := h
      subst hab
      rw [List.dropWhile_cons, List.dropWhile_cons]
      split
      · exact ih r hpr
      · rw [List.cons_prefix_cons]
        exact ⟨rfl, hpr⟩

theorem atoiDigits_head (s : List Nat) (h : ∀ c, s.head? = some c → isdigit c = false) :
    atoiDigits 0 s = 0 := by
  cases s with
  | nil => rfl
  | cons c t =>
    have := h c rfl
    simp [atoiDigits, this]

theorem head_initial (p r : List Nat) (h : p <+: r) : p = [] ∨ p.head? = r.head? := by
  cases p with
  | nil => exact Or.inl rfl
  | cons a p =>
    cases r with
    | nil => simp at h
    | cons b r =>
      rw [List.cons_prefix_cons] at h
      right
      simp [h.1]

theorem afterSign_cases (s : List Nat) :
    (∃ t, s.dropWhile isspace = 45 :: t ∧ afterSign s = t ∧
      atoi s = wrap32 (clampLong (- atoiDigits 0 t))) ∨
    (∃ t, s.dropWhile isspace = 43 :: t ∧ afterSign s = t ∧
      atoi s = wrap32 (clampLong (atoiDigits 0 t))) ∨
    (afterSign s = s.dropWhile isspace ∧
      atoi s = wrap32 (clampLong (atoiDigits 0 (s.dropWhile isspace))) ∧
      ∀ t, s.dropWhile isspace ≠ 45 :: t ∧ s.dropWhile isspace ≠ 43 :: t) := by
  unfold afterSign atoi
  generalize s.dropWhile isspace = q
  rcases q with _ | ⟨c, t⟩
  · right; right
    exact ⟨rfl, rfl, fun t => ⟨by simp, by simp⟩⟩
  · by_cases h45 : c = 45
    · subst h45
      exact Or.inl ⟨t, rfl, rfl, rfl⟩
    · by_cases h43 : c = 43
      · subst h43
        exact Or.inr (Or.inl ⟨t, rfl, rfl, rfl⟩)
      · right; right
        refine ⟨?_, ?_, fun u => ⟨?_, ?_⟩⟩
        · split
          · rename_i heq; simp only [List.cons.injEq] at heq; exact absurd heq.1 h45
          · rename_i heq; simp only [List.cons.injEq] at heq; exact absurd heq.1 h43
          · rfl
        · split
          · rename_i heq; simp only [List.cons.injEq] at heq; exact absurd heq.1 h45
          · rename_i heq; simp only [List.cons.injEq] at heq; exact absurd heq.1 h43
          · rfl
        · intro heq; simp only [List.cons.injEq] at heq; exact h45 heq.1
        · intro heq; simp only [List.cons.injEq] at heq; exact h43 heq.1

theorem afterSign_initial (p r : List Nat) (h : p <+: r) :
    afterSign p = [] ∨ (afterSign p).head? = (afterSign r).head? := by
  have hd := dropWhile_initial isspace p r h
  rcases afterSign_cases p with ⟨t, hq, ha, _⟩ | ⟨t, hq, ha, _⟩ | ⟨ha, _, hn⟩
  · rw [hq] at hd
    obtain ⟨u, hu⟩ := hd
    rcases afterSign_cases r with ⟨t2, hq2, hb, _⟩ | ⟨t2, hq2, _, _⟩ | ⟨_, _, hn2⟩
    · rw [ha, hb]
      rw [hq2, List.cons_append, List.cons.injEq] at hu
      exact head_initial t t2 ⟨u, hu.2⟩
    · rw [hq2, List.cons_append, List.cons.injEq] at hu
      omega
    · exact absurd hu.symm (hn2 _).1
  · rw [hq] at hd
    obtain ⟨u, hu⟩ := hd
    rcases afterSign_cases r with ⟨t2, hq2, _, _⟩ | ⟨t2, hq2, hb, _⟩ | ⟨_, _, hn2⟩
    · rw [hq2, List.cons_append, List.cons.injEq] at hu
      omega
    · rw [ha, hb]
      rw [hq2, List.cons_append, List.cons.injEq] at hu
      exact head_initial t t2 ⟨u, hu.2⟩
    · exact absurd hu.symm (hn2 _).2
  · rw [ha]
    rcases head_initial _ _ hd with h0 | h1
    · exact Or.inl h0
    · rcases afterSign_cases r with ⟨t2, hq2, _, _⟩ | ⟨t2, hq2, _, _⟩ | ⟨hb, _, _⟩
      · rw [hq2] at h1 hd
        cases hq : p.dropWhile isspace with
        | nil => exact Or.inl rfl
        | cons c t =>
          rw [hq] at h1 hd
          simp only [List.head?_cons, Option.some.injEq] at h1
          subst h1
          exact absurd hq (hn t).1
      · rw [hq2] at h1 hd
        cases hq : p.dropWhile isspace with
        | nil => exact Or.inl rfl
        | cons c t =>
          rw [hq] at h1 hd
          simp only [List.head?_cons, Option.some.injEq] at h1
          subst h1
          exact absurd hq (hn t).2
      · right
        rw [hb]
        exact h1

theorem atoi_afterSign (s : List Nat) :
    atoi s = wrap32 (clampLong (atoiDigits 0 (afterSign s))) ∨
      atoi s = wrap32 (clampLong (- atoiDigits 0 (afterSign s))) := by
  rcases afterSign_cases s with ⟨t, _, ha, hb⟩ | ⟨t, _, ha, hb⟩ | ⟨ha, hb, _⟩
  · right; rw [ha, hb]
  · left; rw [ha, hb]
  · left; rw [ha, hb]

/-- What follows the first suffix character has no influence on
`ConfigParseNumber`. -/
theorem parseNumber_rest (p rest : List Nat)
    (hp : ∀ b ∈ p, b ≠ 0 ∧ b ≠ 107 ∧ b ≠ 75 ∧ b ≠ 77) (hlen : p.length < 256) :
    ConfigParseNumber (p ++ 107 :: rest) = ConfigParseNumber (p ++ [107]) ∧
    ConfigParseNumber (p ++ 75 :: rest) = ConfigParseNumber (p ++ [75]) ∧
    ConfigParseNumber (p ++ 77 :: rest) = ConfigParseNumber (p ++ [77]) := by
  have h1 := parseNumber_suffix p rest hp hlen
  have h2 := parseNumber_suffix p [] hp hlen
  exact ⟨by rw [h1.1, h2.1], by rw [h1.2.1, h2.2.1], by rw [h1.2.2, h2.2.2]⟩

/-- `atoi` gives 0 on every initial part of a text that does not start with a
digit behind its white space and sign. -/
theorem atoi_zero (r p : List Nat) (hr : startsNumeric r = false) (hp : p <+: r) :
    atoi p = 0 := by
  have hz : atoiDigits 0 (afterSign p) = 0 := by
    rcases afterSign_initial p r hp with h | h
    · rw [h]; rfl
    · apply atoiDigits_head
      intro c hc
      rw [h] at hc
      unfold startsNumeric at hr
      cases hq : afterSign r with
      | nil => rw [hq] at hc; simp at hc
      | cons c2 t2 =>
        rw [hq] at hc hr
        simp only [List.head?_cons, Option.some.injEq] at hc
        subst hc
        exact hr
  rcases atoi_afterSign p with h | h <;> rw [h, hz] <;> rfl

theorem parseLoop_cases (str : List Nat) (s : List Nat) (i : Nat) :
    ConfigParseNumber.loop str i s = atoi str ∨
      (∃ j, ConfigParseNumber.loop str i s = wrap32 (atoi (str.take j) * 1024)) ∨
      ∃ j, ConfigParseNumber.loop str i s = wrap32 (atoi (str.take j) * 1024 * 1024) := by
  induction s generalizing i with
  | nil => exact Or.inl rfl
  | cons c s ih =>
    simp only [ConfigParseNumber.loop]
    split
    · exact Or.inl rfl
    · split
      · exact Or.inr (Or.inl ⟨i, rfl⟩)
      · split
        · exact Or.inr (Or.inr ⟨i, rfl⟩)
        · exact ih (i + 1)

/-- A text that does not start with a digit parses as zero, with or without a
suffix character in it. -/
theorem parseNumber_zero (r : List Nat) (hr : startsNumeric r = false) :
    ConfigParseNumber r = 0 := by
  rcases parseLoop_cases r r 0 with h | ⟨j, h⟩ | ⟨j, h⟩
  · rw [ConfigParseNumber, h]
    exact atoi_zero r r hr (List.prefix_refl r)
  · rw [ConfigParseNumber, h, atoi_zero r _ hr (List.take_prefix j r)]
    rfl
  · rw [ConfigParseNumber, h, atoi_zero r _ hr (List.take_prefix j r)]
    rfl

/-! ## Trailing spaces and comments -/

theorem rstrip_value (name value : List Nat) (hvalue : value ≠ [] ∧ ∀ b ∈ value, b ≠ 0)
    (hend : value.getLast? ≠ some 32) : rstrip (name ++ value) = name ++ value := by
  apply rstrip_of_getLast
  intro x hx
  obtain ⟨y, hy⟩ : ∃ y, value.getLast? = some y := by
    cases h : value.getLast? with
    | none => exact absurd (List.getLast?_eq_none_iff.1 h) hvalue.1
    | some y => exact ⟨y, rfl⟩
  rw [List.getLast?_append, hy] at hx
  simp only [Option.or_some, Option.some.injEq] at hx
  subst hx
  have h0 : y ≠ 0 := hvalue.2 y (List.mem_of_getLast?_eq_some hy)
  have h32 : y ≠ 32 := fun h => hend (by rw [hy, h])
  simp [isBlank, h0, h32]

theorem dropWhile_agree (p q : Nat → Bool) (l : List Nat) (h : ∀ x ∈ l, p x = q x) :
    l.dropWhile p = l.dropWhile q := by
  induction l with
  | nil => rfl
  | cons a l ih =>
    rw [List.dropWhile_cons, List.dropWhile_cons, h a (by simp),
      ih (fun x hx => h x (by simp [hx]))]

/-- In a text without NUL bytes the trimming removes the trailing spaces. -/
theorem rstrip_eq_trimSpaces (l : List Nat) (h : ∀ b ∈ l, b ≠ 0) : rstrip l = trimSpaces l := by
  unfold rstrip trimSpaces
  congr 1
  apply dropWhile_agree
  intro x hx
  have hx0 : x ≠ 0 := h x (List.mem_reverse.1 hx)
  simp [isBlank, hx0]

/-- The Text lookup on a file of NUL-free lines finds the first line whose
captured form is a candidate for the name. -/
theorem scan_text_find (ls : List (List Nat)) (name : List Nat) (v : Value)
    (hls : ∀ l ∈ ls, (∀ b ∈ l, b ≠ 10 ∧ b ≠ 0) ∧ l.length ≤ 254)
    (hname : ∀ b ∈ name, b ≠ 0) :
    scan 1 (some name) v [] (unlines ls) =
      match ls.find? (fun l => decide (Hit name (trimSpaces (beforeComment l)))) with
      | some l => some (1, Value.str ((trimSpaces (beforeComment l)).drop name.length))
      | none => some (0, v) := by
  induction ls with
  | nil =>
    simp only [unlines, List.find?_nil]
    exact scan_nil 1 _ v []
  | cons l ls ih =>
    obtain ⟨hl, hlen⟩ := hls l (by simp)
    have hbl : (beforeComment l).length ≤ 255 := by
      have := (List.takeWhile_prefix (fun b => b != 35) (l := l)).length_le
      unfold beforeComment
      omega
    have hb0 : ∀ b ∈ beforeComment l, b ≠ 0 :=
      fun b hb => (hl b ((List.takeWhile_prefix (fun b => b != 35) (l := l)).subset hb)).2
    have hr : rstrip (beforeComment l) = trimSpaces (beforeComment l) :=
      rstrip_eq_trimSpaces _ hb0
    simp only [unlines]
    rw [scan_line 1 _ v [] l _ (fun b hb => (hl b hb).1) hbl, line_text name _ v hname, hr,
      ih (fun e he => hls e (by simp [he])), List.find?_cons]
    by_cases hh : Hit name (trimSpaces (beforeComment l))
    · simp [hh, orElse]
    · simp [hh, orElse]

/-! ## The claims -/

set_option maxRecDepth 100000

/-- C1, as stated, fails for the empty value: on the file `key=` (one line,
newline-terminated) the Text lookup of `key=` returns 0 and stores nothing. -/
theorem C1_empty_value_counterexample :
    result (bytes "key=\n") 1 (some (bytes "key=")) (some (Value.str (bytes "old")))
      = some (0, some (Value.str (bytes "old"))) := by
  decide

/-- C1 (amended): in a file whose earlier lines have at most 255 bytes in front
of a `#` and do not begin with the name, a newline-terminated line
`name value` of at most 255 bytes with a non-empty value free of `#` and NUL
and not ending in a space makes the Text lookup of `name` return 1 and store
exactly `value`, whatever follows the line. -/
theorem C1_text_lookup (ls : List (List Nat)) (name value post : List Nat) (v : Value)
    (hname : name ≠ [] ∧ ∀ b ∈ name, b ≠ 0 ∧ b ≠ 10 ∧ b ≠ 35)
    (hvalue : value ≠ [] ∧ ∀ b ∈ value, b ≠ 0 ∧ b ≠ 10 ∧ b ≠ 35)
    (hend : value.getLast? ≠ some 32)
    (hlen : name.length + value.length ≤ 255)
    (hls : ∀ l ∈ ls, (∀ b ∈ l, b ≠ 10) ∧ (beforeComment l).length ≤ 255 ∧ ¬ name <+: l) :
    result (unlines ls ++ (name ++ value ++ 10 :: post)) 1 (some name) (some v)
      = some (1, some (Value.str value)) := by
  rw [result_some _ _ _ _ [], (scan_clean_line ls name value post v hname hvalue hend hlen hls).1]
  rfl

/-- Witness of `C1_text_lookup`: the line `key=value` behind the lines
`# c` and `a=1`, followed by `key=other`. -/
theorem C1_text_lookup_witness :
    result (unlines [bytes "# c", bytes "a=1"] ++
        (bytes "key=" ++ bytes "value" ++ 10 :: bytes "key=other\n")) 1
      (some (bytes "key=")) (some (Value.str [])) = some (1, some (Value.str (bytes "value"))) :=
  C1_text_lookup [bytes "# c", bytes "a=1"] (bytes "key=") (bytes "value")
    (bytes "key=other\n") (Value.str []) (by decide) (by decide) (by decide) (by decide)
    (by decide)

/-- C2, as stated, fails: in the file made of 255 letters `a` followed by
`key=5` and a newline, the only line does not begin with `key=`, yet the Text
lookup of `key=` finds `5`. -/
theorem C2_long_line_counterexample :
    ¬ (bytes "key=" <+: List.replicate 255 97 ++ bytes "key=5") ∧
      result (List.replicate 255 97 ++ bytes "key=5\n") 1 (some (bytes "key="))
        (some (Value.str [])) = some (1, some (Value.str (bytes "5"))) := by
  decide

/-- C2 (amended): in a file whose lines have at most 255 bytes in front of a
`#` (the last line may lack its newline), when no line begins with the name
the lookup returns 0 for every type and leaves the object at `value`
unchanged. -/
theorem C2_absent_name_not_found (ls : List (List Nat)) (last name : List Nat) (type : Int)
    (v : Value) (hname : ∀ b ∈ name, b ≠ 0)
    (hls : ∀ l ∈ ls, (∀ b ∈ l, b ≠ 10) ∧ (beforeComment l).length ≤ 255 ∧ ¬ name <+: l)
    (hlast : (∀ b ∈ last, b ≠ 10) ∧ (beforeComment last).length ≤ 255 ∧ ¬ name <+: last) :
    result (unlines ls ++ last) type (some name) (some v) = some (0, some v) := by
  rw [result_some _ _ _ _ [], scan_absent type name v ls last hname hls hlast]
  rfl

/-- Witness of `C2_absent_name_not_found`: the file `a=1`, `b=2` (the second
line without newline) and the name `key=`. -/
theorem C2_absent_name_not_found_witness :
    result (unlines [bytes "a=1"] ++ bytes "b=2") 2 (some (bytes "key=")) (some (Value.num 7))
      = some (0, some (Value.num 7)) :=
  C2_absent_name_not_found [bytes "a=1"] (bytes "b=2") (bytes "key=") 2 (Value.num 7)
    (by decide) (by decide) (by decide)

/-- C3, as stated, fails: in the file `key=`, `key=5` two lines begin with
`key=`, and the Text lookup of `key=` stores `5`, the text of the second
line, not the empty text of the first. -/
theorem C3_first_line_skipped_counterexample :
    bytes "key=" <+: bytes "key=" ∧ bytes "key=" <+: bytes "key=5" ∧
    result (unlines [bytes "key=", bytes "key=5"]) 1 (some (bytes "key="))
      (some (Value.str [])) = some (1, some (Value.str (bytes "5"))) := by
  decide

/-- C3 (amended): for a non-empty name without NUL, let the deciding line be
the first line whose captured form (cut at the first `#`, trailing spaces and
NUL bytes removed) begins with the name and is longer than it.  When the
lines up to and including the deciding line are newline-terminated and have
at most 255 bytes in front of a `#`, the Text lookup returns 1 and stores the
captured form behind the name, and the Integer lookup returns 1 and stores
`ConfigParseNumber` of that text; what follows the deciding line has no
influence, and a line that holds the name alone is passed over. -/
theorem C3_first_match_wins (ls : List (List Nat)) (name l post : List Nat) (v : Value)
    (hname : name ≠ [] ∧ ∀ b ∈ name, b ≠ 0)
    (hls : ∀ e ∈ ls, (∀ b ∈ e, b ≠ 10) ∧ (beforeComment e).length ≤ 255 ∧
      ¬ (name <+: captured e ∧ name.length < (captured e).length))
    (hl : (∀ b ∈ l, b ≠ 10) ∧ (beforeComment l).length ≤ 255 ∧
      name <+: captured l ∧ name.length < (captured l).length) :
    result (unlines ls ++ (l ++ 10 :: post)) 1 (some name) (some v)
      = some (1, some (Value.str ((captured l).drop name.length))) ∧
    result (unlines ls ++ (l ++ 10 :: post)) 2 (some name) (some v)
      = some (1, some (Value.num (toULong (ConfigParseNumber
          ((captured l).drop name.length))))) := by
  have hlen1 : 0 < name.length := List.length_pos.2 hname.1
  have hhit : Hit name (rstrip (beforeComment l)) := ⟨by
    have := hl.2.2.2
    unfold captured at this
    omega, hl.2.2.2, hl.2.2.1⟩
  have hmiss : ∀ e ∈ ls, ¬ Hit name (rstrip (beforeComment e)) :=
    fun e he hh => (hls e he).2.2 ⟨hh.2.2, hh.2.1⟩
  constructor
  · rw [result_some _ _ _ _ [],
      scan_first 1 (some name) v ls l post (1, Value.str ((captured l).drop name.length))
        (fun e he => ⟨(hls e he).1, (hls e he).2.1, by
          rw [line_text name _ v hname.2]; simp [hmiss e he]⟩)
        hl.1 hl.2.1 (by rw [line_text name _ v hname.2]; simp [hhit, captured])]
    rfl
  · rw [result_some _ _ _ _ [],
      scan_first 2 (some name) v ls l post
        (1, Value.num (toULong (ConfigParseNumber ((captured l).drop name.length))))
        (fun e he => ⟨(hls e he).1, (hls e he).2.1, by
          rw [line_num name _ v hname.2]; simp [hmiss e he]⟩)
        hl.1 hl.2.1 (by rw [line_num name _ v hname.2]; simp [hhit, captured])]
    rfl

/-- Witness of `C3_first_match_wins`: the file `key=`, `key=5  # five`,
`key=6`. -/
theorem C3_first_match_wins_witness :
    result (unlines [bytes "key="] ++ (bytes "key=5  # five" ++ 10 :: bytes "key=6\n")) 1
      (some (bytes "key=")) (some (Value.str []))
      = some (1, some (Value.str ((captured (bytes "key=5  # five")).drop
          (bytes "key=").length))) ∧
    result (unlines [bytes "key="] ++ (bytes "key=5  # five" ++ 10 :: bytes "key=6\n")) 2
      (some (bytes "key=")) (some (Value.str []))
      = some (1, some (Value.num (toULong (ConfigParseNumber
          ((captured (bytes "key=5  # five")).drop (bytes "key=").length))))) :=
  C3_first_match_wins [bytes "key="] (bytes "key=") (bytes "key=5  # five")
    (bytes "key=6\n") (Value.str []) (by decide) (by decide) (by decide)

/-- C4: for every decimal numeral `d`, the Integer lookup of `n=` returns 1
and stores `d` on the line `n=d`, `d*1024` on `n=dk` and `n=dK`, and
`d*1024*1024` on `n=dM`, as long as the product is below 2^31; `4k` gives
4096, `2M` gives 2097152 and `10` gives 10. -/
theorem C4_suffix_law (d : Nat) (v : Value) :
    (d < 2147483648 →
      result (bytes "n=" ++ decimal d ++ [10]) 2 (some (bytes "n=")) (some v)
        = some (1, some (Value.num d))) ∧
    (d * 1024 < 2147483648 →
      result (bytes "n=" ++ decimal d ++ [107, 10]) 2 (some (bytes "n=")) (some v)
        = some (1, some (Value.num (d * 1024))) ∧
      result (bytes "n=" ++ decimal d ++ [75, 10]) 2 (some (bytes "n=")) (some v)
        = some (1, some (Value.num (d * 1024)))) ∧
    (d * 1024 * 1024 < 2147483648 →
      result (bytes "n=" ++ decimal d ++ [77, 10]) 2 (some (bytes "n=")) (some v)
        = some (1, some (Value.num (d * 1024 * 1024)))) ∧
    result (bytes "n=4k\n") 2 (some (bytes "n=")) (some v) = some (1, some (Value.num 4096)) ∧
    result (bytes "n=2M\n") 2 (some (bytes "n=")) (some v)
      = some (1, some (Value.num 2097152)) ∧
    result (bytes "n=10\n") 2 (some (bytes "n=")) (some v) = some (1, some (Value.num 10)) := by
  have hp := parseNumber_decimal d
  have key : ∀ e : Nat, e < 2147483648 →
      (result (bytes "n=" ++ decimal e ++ [10]) 2 (some (bytes "n=")) (some v)
        = some (1, some (Value.num e))) ∧
      (e * 1024 < 2147483648 →
        result (bytes "n=" ++ decimal e ++ [107, 10]) 2 (some (bytes "n=")) (some v)
          = some (1, some (Value.num (e * 1024))) ∧
        result (bytes "n=" ++ decimal e ++ [75, 10]) 2 (some (bytes "n=")) (some v)
          = some (1, some (Value.num (e * 1024)))) ∧
      (e * 1024 * 1024 < 2147483648 →
        result (bytes "n=" ++ decimal e ++ [77, 10]) 2 (some (bytes "n=")) (some v)
          = some (1, some (Value.num (e * 1024 * 1024)))) := by
    intro e he
    have hp := parseNumber_decimal e
    refine ⟨?_, fun h => ⟨?_, ?_⟩, fun h => ?_⟩
    · have := scan_numeral e [] v he (Or.inl rfl)
      rw [List.nil_append, List.append_nil, hp.1 he, toULong_of_nat e he] at this
      exact this
    · have := scan_numeral e [107] v he (Or.inr (Or.inl rfl))
      rw [(hp.2.1 h).1, toULong_of_nat _ h] at this
      exact this
    · have := scan_numeral e [75] v he (Or.inr (Or.inr (Or.inl rfl)))
      rw [(hp.2.1 h).2, toULong_of_nat _ h] at this
      exact this
    · have := scan_numeral e [77] v he (Or.inr (Or.inr (Or.inr rfl)))
      rw [hp.2.2 h, toULong_of_nat _ h] at this
      exact this
  refine ⟨fun h => (key d h).1, fun h => (key d (by omega)).2.1 h,
    fun h => (key d (by omega)).2.2 h, ?_, ?_, ?_⟩
  · have := ((key 4 (by decide)).2.1 (by decide)).1
    have e : bytes "n=" ++ decimal 4 ++ [107, 10] = bytes "n=4k\n" := by
      simp [decimal]; decide
    rw [e] at this
    exact this
  · have := (key 2 (by decide)).2.2 (by decide)
    have e : bytes "n=" ++ decimal 2 ++ [77, 10] = bytes "n=2M\n" := by
      simp [decimal]; decide
    rw [e] at this
    exact this
  · have := (key 10 (by decide)).1
    have e : bytes "n=" ++ decimal 10 ++ [10] = bytes "n=10\n" := by
      simp [decimal]; decide
    rw [e] at this
    exact this

/-- Witness of `C4_suffix_law`: the numeral 3 with each suffix. -/
theorem C4_suffix_law_witness :
    result (bytes "n=" ++ decimal 3 ++ [10]) 2 (some (bytes "n=")) (some (Value.num 0))
      = some (1, some (Value.num 3)) ∧
    result (bytes "n=" ++ decimal 3 ++ [107, 10]) 2 (some (bytes "n=")) (some (Value.num 0))
      = some (1, some (Value.num (3 * 1024))) ∧
    result (bytes "n=" ++ decimal 3 ++ [77, 10]) 2 (some (bytes "n=")) (some (Value.num 0))
      = some (1, some (Value.num (3 * 1024 * 1024))) :=
  ⟨(C4_suffix_law 3 (Value.num 0)).1 (by decide),
    ((C4_suffix_law 3 (Value.num 0)).2.1 (by decide)).1,
    (C4_suffix_law 3 (Value.num 0)).2.2.1 (by decide)⟩

/-- C5, as stated, fails: in the file `n=true ` (a space behind `true`) the
text behind `n=` is not the literal `true`, yet the Boolean lookup of `n=`
returns 1 and stores true. -/
theorem C5_trailing_space_counterexample :
    bytes "true " ≠ bytes "true" ∧
    result (bytes "n=" ++ bytes "true " ++ [10]) 3 (some (bytes "n=")) (some (Value.int 7))
      = some (1, some (Value.int 1)) := by
  decide

/-- C5 (amended): in a file whose lines have at most 255 bytes in front of a
`#` and whose only line beginning with `n=` is the newline-terminated line
`n=v`, the Boolean lookup of `n=` returns 1 with true exactly when the
captured `v` (cut at the first `#`, without trailing spaces and NUL bytes,
read up to its first NUL) is `true`, 1 with false exactly when it is
`false`, and 0 with the object unchanged in every other case. -/
theorem C5_boolean_strictness (ls ls2 : List (List Nat)) (w last : List Nat) (v : Value)
    (hls : ∀ l ∈ ls, (∀ b ∈ l, b ≠ 10) ∧ (beforeComment l).length ≤ 255 ∧
      ¬ bytes "n=" <+: l)
    (hls2 : ∀ l ∈ ls2, (∀ b ∈ l, b ≠ 10) ∧ (beforeComment l).length ≤ 255 ∧
      ¬ bytes "n=" <+: l)
    (hlast : (∀ b ∈ last, b ≠ 10) ∧ (beforeComment last).length ≤ 255 ∧
      ¬ bytes "n=" <+: last)
    (hw : (∀ b ∈ w, b ≠ 10) ∧ (beforeComment w).length ≤ 253) :
    result (unlines ls ++ (bytes "n=" ++ w ++ 10 :: (unlines ls2 ++ last))) 3
        (some (bytes "n=")) (some v) =
      if cstr (captured w) = strTrue then some (1, some (Value.int 1))
      else if cstr (captured w) = strFalse then some (1, some (Value.int 0))
      else some (0, some v) := by
  have hn0 : ∀ b ∈ bytes "n=", b ≠ 0 := by decide
  have hn35 : ∀ b ∈ bytes "n=", b ≠ 35 := by decide
  have hn10 : ∀ b ∈ bytes "n=", b ≠ 10 := by decide
  have hnl : (bytes "n=").length = 2 := by decide
  have hnlast : ∀ x, (bytes "n=").getLast? = some x → isBlank x = false := by
    intro x hx
    have e : (bytes "n=").getLast? = some 61 := by decide
    rw [e] at hx
    cases hx
    decide
  have hcap : captured (bytes "n=" ++ w) = bytes "n=" ++ captured w :=
    captured_name_append _ w hn35 hnlast
  have hbv : boolValue (bytes "n=") (bytes "n=" ++ w) =
      if cstr (captured w) = strFalse then some 0
      else if cstr (captured w) = strTrue then some 1 else none := by
    unfold boolValue
    rw [hcap, List.drop_left]
    simp
  have hl10 : ∀ b ∈ bytes "n=" ++ w, b ≠ 10 := by
    intro b hb
    rcases List.mem_append.1 hb with h | h
    · exact hn10 b h
    · exact hw.1 b h
  have hblen : (beforeComment (bytes "n=" ++ w)).length ≤ 255 := by
    rw [beforeComment_append _ _ hn35, List.length_append, hnl]
    have := hw.2
    omega
  have hmiss : ∀ e ∈ ls, (∀ b ∈ e, b ≠ 10) ∧ (beforeComment e).length ≤ 255 ∧
      ConfigGetParam.line 3 (some (bytes "n=")) v (beforeComment e) = none := by
    intro e he
    refine ⟨(hls e he).1, (hls e he).2.1, ?_⟩
    rw [line_bool _ _ v hn0]
    have : ¬ Hit (bytes "n=") (rstrip (beforeComment e)) :=
      fun hh => (hls e he).2.2 (hh.2.2.trans (captured_initial e))
    simp [this]
  have hfile : unlines ls ++ (bytes "n=" ++ w ++ 10 :: (unlines ls2 ++ last))
      = unlines ls ++ ((bytes "n=" ++ w) ++ 10 :: (unlines ls2 ++ last)) := by
    simp
  have hTF : ¬ strTrue = strFalse := by decide
  have hFT : ¬ strFalse = strTrue := by decide
  rw [result_some _ _ _ _ [], hfile, scan_unlines 3 _ v [] ls _ hmiss,
    scan_line 3 _ v [] _ _ hl10 hblen, line_boolValue _ _ v hn0, hbv,
    scan_absent 3 _ v ls2 last hn0 hls2 hlast]
  by_cases hT : cstr (captured w) = strTrue
  · simp [hT, hTF, orElse]
  · by_cases hF : cstr (captured w) = strFalse
    · simp [hF, hFT, orElse]
    · simp [hT, hF, orElse]

/-- Witness of `C5_boolean_strictness`: the line `n=false # off` between the
lines `a=1` and `b=2`, the last line `c=3` without newline. -/
theorem C5_boolean_strictness_witness :
    result (unlines [bytes "a=1"] ++
        (bytes "n=" ++ bytes "false # off" ++ 10 :: (unlines [bytes "b=2"] ++ bytes "c=3"))) 3
        (some (bytes "n=")) (some (Value.int 7)) =
      if cstr (captured (bytes "false # off")) = strTrue then some (1, some (Value.int 1))
      else if cstr (captured (bytes "false # off")) = strFalse then
        some (1, some (Value.int 0))
      else some (0, some (Value.int 7)) :=
  C5_boolean_strictness [bytes "a=1"] [bytes "b=2"] (bytes "false # off") (bytes "c=3")
    (Value.int 7) (by decide) (by decide) (by decide) (by decide)

/-- C6, as stated, fails: in the file `n=true#x`, `n=false` the first line
whose text behind `n=` is exactly `true` or `false` is the second, yet the
Boolean lookup of `n=` returns true, from the first line. -/
theorem C6_comment_counterexample :
    bytes "true#x" ≠ bytes "true" ∧ bytes "true#x" ≠ bytes "false" ∧
    result (unlines [bytes "n=" ++ bytes "true#x", bytes "n=" ++ bytes "false"]) 3
      (some (bytes "n=")) (some (Value.int 7)) = some (1, some (Value.int 1)) := by
  decide

/-- C6 (amended): in a file whose lines have at most 255 bytes in front of a
`#`, the Boolean lookup returns the value of the first line whose captured
form begins with the name and continues, read as a C string, with exactly
`true` or `false`; earlier lines that begin with the name and continue
otherwise do not stop the scan, and what follows the line has no influence.
On `n=yes`, `n=true` the lookup of `n=` returns true. -/
theorem C6_malformed_boolean_skipped (ls : List (List Nat)) (name l post : List Nat)
    (b : Int) (v : Value) (hname : ∀ x ∈ name, x ≠ 0)
    (hls : ∀ e ∈ ls, (∀ x ∈ e, x ≠ 10) ∧ (beforeComment e).length ≤ 255 ∧
      boolValue name e = none)
    (hl : (∀ x ∈ l, x ≠ 10) ∧ (beforeComment l).length ≤ 255 ∧ boolValue name l = some b) :
    result (unlines ls ++ (l ++ 10 :: post)) 3 (some name) (some v)
      = some (1, some (Value.int b)) ∧
    result (bytes "n=yes\nn=true\n") 3 (some (bytes "n=")) (some v)
      = some (1, some (Value.int 1)) := by
  have key : ∀ (ls : List (List Nat)) (name l post : List Nat) (b : Int),
      (∀ x ∈ name, x ≠ 0) →
      (∀ e ∈ ls, (∀ x ∈ e, x ≠ 10) ∧ (beforeComment e).length ≤ 255 ∧
        boolValue name e = none) →
      ((∀ x ∈ l, x ≠ 10) ∧ (beforeComment l).length ≤ 255 ∧ boolValue name l = some b) →
      result (unlines ls ++ (l ++ 10 :: post)) 3 (some name) (some v)
        = some (1, some (Value.int b)) := by
    intro ls name l post b hname hls hl
    rw [result_some _ _ _ _ [],
      scan_first 3 (some name) v ls l post (1, Value.int b)
        (fun e he => ⟨(hls e he).1, (hls e he).2.1, by
          rw [line_boolValue name e v hname, (hls e he).2.2]; rfl⟩)
        hl.1 hl.2.1 (by rw [line_boolValue name l v hname, hl.2.2]; rfl)]
    rfl
  refine ⟨key ls name l post b hname hls hl, ?_⟩
  have := key [bytes "n=yes"] (bytes "n=") (bytes "n=true") [] 1 (by decide) (by decide)
    (by decide)
  have e : unlines [bytes "n=yes"] ++ (bytes "n=true" ++ 10 :: [])
      = bytes "n=yes\nn=true\n" := by decide
  rw [e] at this
  exact this

/-- Witness of `C6_malformed_boolean_skipped`: the file `n=yes`, `n=TRUE`,
`n=false`, `n=true`. -/
theorem C6_malformed_boolean_skipped_witness :
    result (unlines [bytes "n=yes", bytes "n=TRUE"] ++ (bytes "n=false" ++ 10 :: bytes "n=true\n"))
      3 (some (bytes "n=")) (some (Value.int 7)) = some (1, some (Value.int 0)) :=
  (C6_malformed_boolean_skipped [bytes "n=yes", bytes "n=TRUE"] (bytes "n=") (bytes "n=false")
    (bytes "n=true\n") 0 (Value.int 7) (by decide) (by decide) (by decide)).1

/-- C7: a blank line (empty or made of spaces only), or a newline-terminated
line that starts with `#`, inserted at a line boundary does not change the
result of a lookup, for every file, type, name and object at `value`;
`# comment\n\nkey=1\n` gives 1 for the Integer `key=`, and `#key=5\n` gives
not found for `key=` at every type. -/
theorem C7_blank_and_comment_lines_invisible (pre post c : List Nat) (k : Nat) (type : Int)
    (name : Option (List Nat)) (value : Option Value)
    (hpre : LineBoundary pre) (hc : ∀ b ∈ c, b ≠ 10) :
    result (pre ++ 10 :: post) type name value = result (pre ++ post) type name value ∧
    result (pre ++ (List.replicate k 32 ++ 10 :: post)) type name value
      = result (pre ++ post) type name value ∧
    result (pre ++ 35 :: (c ++ 10 :: post)) type name value
      = result (pre ++ post) type name value ∧
    result (bytes "# comment\n\nkey=1\n") 2 (some (bytes "key=")) (some (Value.num 0))
      = some (1, some (Value.num 1)) ∧
    ∀ (ty : Int) (w : Option Value),
      result (bytes "#key=5\n") ty (some (bytes "key=")) w = some (0, w) := by
  refine ⟨?_, ?_, ?_, by decide, ?_⟩
  · cases value with
    | none => simp [result_none]
    | some v =>
      obtain ⟨o, ho⟩ := scan_frame type name v pre.length pre (le_refl _) hpre
      rw [result_some _ _ _ _ [], result_some _ _ _ _ [], ho, ho]
      have := scan_blank type name v [] [] post (Or.inl rfl)
      rw [List.nil_append] at this
      rw [this]
  · cases value with
    | none => simp [result_none]
    | some v =>
      obtain ⟨o, ho⟩ := scan_frame type name v pre.length pre (le_refl _) hpre
      rw [result_some _ _ _ _ [], result_some _ _ _ _ [], ho, ho,
        scan_spaces type name v k k (le_refl _) [] post]
  · cases value with
    | none => simp [result_none]
    | some v =>
      obtain ⟨o, ho⟩ := scan_frame type name v pre.length pre (le_refl _) hpre
      rw [result_some _ _ _ _ [], result_some _ _ _ _ [], ho, ho]
      have := scan_blank type name v [] (35 :: c) post (Or.inr ⟨c, rfl, hc⟩)
      rw [List.cons_append] at this
      rw [this]
  · intro ty w
    cases w with
    | none => simp [result_none]
    | some v =>
      rw [result_some _ _ _ _ []]
      have hb : bytes "#key=5\n" = (35 :: bytes "key=5") ++ 10 :: [] := by decide
      rw [hb, scan_blank ty _ v [] (35 :: bytes "key=5") [] (Or.inr ⟨_, rfl, by decide⟩),
        scan_nil]
      rfl

/-- Witness of `C7_blank_and_comment_lines_invisible`: a blank line, a line
of three spaces and the comment line `#x` inserted behind the first line of
`a=1\nb=2\n`. -/
theorem C7_blank_and_comment_lines_invisible_witness :
    LineBoundary (bytes "a=1\n") ∧ (∀ b ∈ bytes "x", b ≠ 10) ∧
    result (bytes "a=1\n" ++ 10 :: bytes "b=2\n") 2 (some (bytes "b=")) (some (Value.num 0))
      = result (bytes "a=1\n" ++ bytes "b=2\n") 2 (some (bytes "b=")) (some (Value.num 0)) ∧
    result (bytes "a=1\n" ++ (List.replicate 3 32 ++ 10 :: bytes "b=2\n")) 2
      (some (bytes "b=")) (some (Value.num 0))
      = result (bytes "a=1\n" ++ bytes "b=2\n") 2 (some (bytes "b=")) (some (Value.num 0)) ∧
    result (bytes "a=1\n" ++ 35 :: (bytes "x" ++ 10 :: bytes "b=2\n")) 2 (some (bytes "b="))
      (some (Value.num 0))
      = result (bytes "a=1\n" ++ bytes "b=2\n") 2 (some (bytes "b=")) (some (Value.num 0)) :=
  ⟨Or.inr (by decide), by decide,
    (C7_blank_and_comment_lines_invisible (bytes "a=1\n") (bytes "b=2\n") (bytes "x") 3 2
      (some (bytes "b=")) (some (Value.num 0)) (Or.inr (by decide)) (by decide)).1,
    (C7_blank_and_comment_lines_invisible (bytes "a=1\n") (bytes "b=2\n") (bytes "x") 3 2
      (some (bytes "b=")) (some (Value.num 0)) (Or.inr (by decide)) (by decide)).2.1,
    (C7_blank_and_comment_lines_invisible (bytes "a=1\n") (bytes "b=2\n") (bytes "x") 3 2
      (some (bytes "b=")) (some (Value.num 0)) (Or.inr (by decide)) (by decide)).2.2.1⟩

/-- C8: on the file `# sample config`, `host=192.168.0.1`, `port=8080`,
`retries=3k`, `debug=true` the lookups give the text `192.168.0.1` for
`host=`, 8080 for `port=`, 3072 for `retries=`, true for `debug=`, and not
found for the Text `missing=`. -/
theorem C8_end_to_end :
    result (bytes "# sample config\nhost=192.168.0.1\nport=8080\nretries=3k\ndebug=true\n") 1
      (some (bytes "host=")) (some (Value.str [])) =
        some (1, some (Value.str (bytes "192.168.0.1"))) ∧
    result (bytes "# sample config\nhost=192.168.0.1\nport=8080\nretries=3k\ndebug=true\n") 2
      (some (bytes "port=")) (some (Value.num 0)) = some (1, some (Value.num 8080)) ∧
    result (bytes "# sample config\nhost=192.168.0.1\nport=8080\nretries=3k\ndebug=true\n") 2
      (some (bytes "retries=")) (some (Value.num 0)) = some (1, some (Value.num 3072)) ∧
    result (bytes "# sample config\nhost=192.168.0.1\nport=8080\nretries=3k\ndebug=true\n") 3
      (some (bytes "debug=")) (some (Value.int 0)) = some (1, some (Value.int 1)) ∧
    result (bytes "# sample config\nhost=192.168.0.1\nport=8080\nretries=3k\ndebug=true\n") 1
      (some (bytes "missing=")) (some (Value.str [])) = some (0, some (Value.str [])) := by
  decide

/-- C9 fails on the code: on the file `debug=true` without a final newline the
Boolean lookup of `debug=` returns 0, while with the newline it returns 1 and
stores true; and on `host=a.b` the Text lookup of `host=` stores `a.b`
followed by the byte 255, the end-of-file result of `getc` kept as a
character. -/
theorem C9_end_of_file_byte_is_stored :
    result (bytes "debug=true") 3 (some (bytes "debug=")) (some (Value.int 7))
      = some (0, some (Value.int 7)) ∧
    result (bytes "debug=true\n") 3 (some (bytes "debug=")) (some (Value.int 7))
      = some (1, some (Value.int 1)) ∧
    result (bytes "host=a.b") 1 (some (bytes "host=")) (some (Value.str []))
      = some (1, some (Value.str (bytes "a.b" ++ [255]))) ∧
    result (bytes "host=a.b\n") 1 (some (bytes "host=")) (some (Value.str []))
      = some (1, some (Value.str (bytes "a.b"))) := by
  decide

/-- C10, as stated, fails: on the file whose single line is 255 letters `a`
followed by `key=5` and a newline, the Integer lookup of `key=` returns 1
and stores 5: the bytes behind the 255th are read as a line of their own. -/
theorem C10_overflow_is_matched_counterexample :
    result (List.replicate 255 97 ++ bytes "key=5\n") 2 (some (bytes "key="))
      (some (Value.num 0)) = some (1, some (Value.num 5)) := by
  decide

/-- C10 (amended): a line is split, not truncated, behind its 255th byte: for
every line that starts at a line boundary and whose first 255 bytes hold no
`#` and no newline, every lookup gives the same result as on the file with a
newline inserted behind these 255 bytes, so the bytes beyond them are read
and matched as the next line; on 255 letters `a` followed by `key=5` and a
newline the Integer lookup of `key=` returns 1 and stores 5. -/
theorem C10_long_line_is_split (pre a rest : List Nat) (type : Int)
    (name : Option (List Nat)) (value : Option Value) (hpre : LineBoundary pre)
    (hlen : a.length = 255) (ha : ∀ b ∈ a, b ≠ 10 ∧ b ≠ 35) :
    result (pre ++ (a ++ rest)) type name value
      = result (pre ++ (a ++ 10 :: rest)) type name value ∧
    result (List.replicate 255 97 ++ bytes "key=5\n") 2 (some (bytes "key="))
      (some (Value.num 0)) = some (1, some (Value.num 5)) := by
  refine ⟨?_, by decide⟩
  cases value with
  | none => simp [result_none]
  | some v =>
    have hbc : beforeComment a = a := by
      rw [beforeComment, List.takeWhile_eq_self_iff]
      intro x hx
      simpa using (ha x hx).2
    have hr : readLine 255 [] ⟨[], a ++ rest, false⟩ = (a, ⟨[], rest, false⟩) := by
      have := readLine_full 255 [] [] a rest ha hlen
      rw [List.nil_append] at this
      exact this
    have hsplit : scan type name v [] (a ++ rest) = scan type name v [] (a ++ 10 :: rest) := by
      rw [scan_line type name v [] a rest (fun b hb => (ha b hb).1) (by rw [hbc]; omega),
        scan_step, hr, hbc]
      rfl
    obtain ⟨o, ho⟩ := scan_frame type name v pre.length pre (le_refl _) hpre
    rw [result_some _ _ _ _ [], result_some _ _ _ _ [], ho, ho, hsplit]

/-- Witness of `C10_long_line_is_split`: the line of 255 letters `a` followed
by `key=5`, behind the line `b=1`. -/
theorem C10_long_line_is_split_witness :
    LineBoundary (bytes "b=1\n") ∧ (List.replicate 255 97).length = 255 ∧
    (∀ b ∈ List.replicate 255 97, b ≠ 10 ∧ b ≠ 35) ∧
    result (bytes "b=1\n" ++ (List.replicate 255 97 ++ bytes "key=5\n")) 2
      (some (bytes "key=")) (some (Value.num 0))
      = result (bytes "b=1\n" ++ (List.replicate 255 97 ++ 10 :: bytes "key=5\n")) 2
        (some (bytes "key=")) (some (Value.num 0)) :=
  ⟨Or.inr (by decide), by decide, by decide,
    (C10_long_line_is_split (bytes "b=1\n") (List.replicate 255 97) (bytes "key=5\n") 2
      (some (bytes "key=")) (some (Value.num 0)) (Or.inr (by decide)) (by decide)
      (by decide)).1⟩

/-- C11, as stated, fails: on the file `ab` (one line, newline-terminated) the
Text lookup of the empty name returns 1 and stores `ab`. -/
theorem C11_empty_name_counterexample :
    result (bytes "ab\n") 1 (some []) (some (Value.str []))
      = some (1, some (Value.str (bytes "ab"))) := by
  decide

/-- C11 (amended): a null name is rejected, with every file, type and object
the lookup returns 0 and stores nothing; the empty name is not: it begins
every line.  Let the deciding line be the first line whose captured form (cut
at the first `#`, trailing spaces and NUL bytes removed) has at least two
bytes; when the lines up to and including the deciding line are
newline-terminated and have at most 255 bytes in front of a `#`, the Text
lookup of the empty name returns 1 and stores the whole captured form of the
deciding line, whatever follows it. -/
theorem C11_null_name_rejected_empty_name_found (content : List Nat) (type : Int)
    (value : Option Value) (ls : List (List Nat)) (l post : List Nat) (v : Value)
    (hls : ∀ e ∈ ls, (∀ b ∈ e, b ≠ 10) ∧ (beforeComment e).length ≤ 255 ∧
      (captured e).length < 2)
    (hl : (∀ b ∈ l, b ≠ 10) ∧ (beforeComment l).length ≤ 255 ∧ 2 ≤ (captured l).length) :
    result content type none value = some (0, value) ∧
    result (unlines ls ++ (l ++ 10 :: post)) 1 (some []) (some v)
      = some (1, some (Value.str (captured l))) := by
  have hnil : ∀ b ∈ ([] : List Nat), b ≠ 0 := fun b hb => by simp at hb
  constructor
  · cases value with
    | none => exact result_none content type none
    | some w =>
      exact result_scan content type none w 0 w
        (scan_zero type none w [] content (fun buf => line_null type w buf))
  · apply result_scan
    apply scan_first 1 (some []) v ls l post _ _ hl.1 hl.2.1
    · rw [line_text [] _ v hnil]
      have hh : Hit [] (rstrip (beforeComment l)) :=
        ⟨hl.2.2, by have := hl.2.2; unfold captured at this; simp only [List.length_nil]; omega,
          List.nil_prefix⟩
      simp [hh, captured]
    · intro e he
      refine ⟨(hls e he).1, (hls e he).2.1, ?_⟩
      rw [line_text [] _ v hnil]
      have hh : ¬ Hit [] (rstrip (beforeComment e)) := by
        intro hh
        have := (hls e he).2.2
        have h2 := hh.1
        unfold captured at this
        omega
      simp [hh]

/-- Witness of `C11_null_name_rejected_empty_name_found`: the file `#c`, `x`,
`ab # d`, `cd`. -/
theorem C11_null_name_rejected_empty_name_found_witness :
    result (bytes "k=1\n") 1 none (some (Value.str [])) = some (0, some (Value.str [])) ∧
    result (unlines [bytes "#c", bytes "x"] ++ (bytes "ab # d" ++ 10 :: bytes "cd\n")) 1
      (some []) (some (Value.str []))
      = some (1, some (Value.str (captured (bytes "ab # d")))) :=
  C11_null_name_rejected_empty_name_found (bytes "k=1\n") 1 (some (Value.str []))
    [bytes "#c", bytes "x"] (bytes "ab # d") (bytes "cd\n") (Value.str [])
    (by decide) (by decide)

/-- C12: with a type other than 1, 2 and 3 the lookup returns 0, for every
file, name and object, and leaves the object untouched. -/
theorem C12_unsupported_type_not_found (content : List Nat) (type : Int)
    (name : Option (List Nat)) (value : Option Value)
    (h1 : type ≠ 1) (h2 : type ≠ 2) (h3 : type ≠ 3) :
    result content type name value = some (0, value) := by
  cases value with
  | none => exact result_none content type name
  | some w =>
    exact result_scan content type name w 0 w
      (scan_zero type name w [] content (fun buf => line_default type name w buf h1 h2 h3))

/-- Witness of `C12_unsupported_type_not_found`: the type 4 on the file
`a=1`. -/
theorem C12_unsupported_type_not_found_witness :
    (4 : Int) ≠ 1 ∧ (4 : Int) ≠ 2 ∧ (4 : Int) ≠ 3 ∧
    result (bytes "a=1\n") 4 (some (bytes "a=")) (some (Value.num 7))
      = some (0, some (Value.num 7)) :=
  ⟨by decide, by decide, by decide,
    C12_unsupported_type_not_found (bytes "a=1\n") 4 (some (bytes "a=")) (some (Value.num 7))
      (by decide) (by decide) (by decide)⟩

/-- C13: for every file, type, name and object, the lookup either returns 0
and leaves the object at `value` as it was, or returns 1; the object is
written only with the result 1.  On `n=yes` the Boolean lookup of `n=` meets
a line with the name and a malformed literal and returns 0 with the object
untouched. -/
theorem C13_no_partial_result (content : List Nat) (type : Int) (name : Option (List Nat))
    (value : Option Value) :
    (result content type name value = some (0, value) ∨
      ∃ x, result content type name value = some (1, some x)) ∧
    result (bytes "n=yes\n") 3 (some (bytes "n=")) (some (Value.int 7))
      = some (0, some (Value.int 7)) := by
  refine ⟨?_, by decide⟩
  cases value with
  | none => exact Or.inl (result_none content type name)
  | some w =>
    rcases scan_cases type name w [] content with h | ⟨x, h⟩
    · exact Or.inl (result_scan content type name w 0 w h)
    · exact Or.inr ⟨x, result_scan content type name w 1 x h⟩

/-- C14: a lookup does not depend on the read position and end-of-file state
of the stream it is given, only on the file behind it: it is the lookup on
the freshly opened file.  The stream it leaves is a stream over the same
file, and the same lookup repeated on that stream, with the object as the
first call left it, returns the same result and the same object. -/
theorem C14_lookup_rewinds (f : FILE) (type : Int) (name : Option (List Nat))
    (value : Option Value) :
    ConfigGetParam f type name value = ConfigGetParam (fopen f.data) type name value ∧
    ∀ (r : Int) (v2 : Option Value) (f2 : FILE),
      ConfigGetParam f type name value = some (r, v2, f2) →
        f2.data = f.data ∧
        (ConfigGetParam f2 type name v2).map (fun t => (t.1, t.2.1)) = some (r, v2) := by
  refine ⟨rfl, ?_⟩
  intro r v2 f2 h
  have hres : result f.data type name value = some (r, v2) := by
    have h0 : ConfigGetParam (fopen f.data) type name value = some (r, v2, f2) := h
    simp [result, h0]
  have hdata : f2.data = f.data := by
    cases value with
    | none =>
      simp only [ConfigGetParam, fseek] at h
      simp at h
      rw [← h.2.2]
    | some w =>
      simp only [ConfigGetParam, fseek] at h
      simp only [ne_eq, not_true_eq_false, if_false, Option.map_eq_some'] at h
      obtain ⟨t, ht, he⟩ := h
      have := loop_data type name w _ _ t ht
      simp only at this
      simp only [Prod.mk.injEq] at he
      rw [← he.2.2]
      exact this
  refine ⟨hdata, ?_⟩
  have h2 : (ConfigGetParam f2 type name v2).map (fun t => (t.1, t.2.1))
      = result f.data type name v2 := by
    rw [← hdata]
    rfl
  rw [h2]
  cases value with
  | none =>
    rw [result_none] at hres
    simp only [Option.some.injEq, Prod.mk.injEq] at hres
    rw [← hres.1, ← hres.2]
    exact result_none f.data type name
  | some w =>
    rcases scan_cases type name w [] f.data with h0 | ⟨x, h1⟩
    · have e := result_scan f.data type name w 0 w h0
      rw [e] at hres
      simp only [Option.some.injEq, Prod.mk.injEq] at hres
      rw [← hres.1, ← hres.2]
      exact e
    · have e := result_scan f.data type name w 1 x h1
      rw [e] at hres
      simp only [Option.some.injEq, Prod.mk.injEq] at hres
      rw [← hres.1, ← hres.2]
      rcases scan_value type name w x [] f.data with ⟨ha, _⟩ | ⟨y, ha, hb⟩
      · rw [ha] at h1
        simp at h1
      · rw [ha] at h1
        simp only [Option.some.injEq, Prod.mk.injEq, true_and] at h1
        subst h1
        exact result_scan f.data type name y 1 y hb

/-- Witness of `C14_lookup_rewinds`: the Integer lookup of `a=` on a stream
over `a=1`, `b=2` that an earlier lookup left at the end of the file. -/
theorem C14_lookup_rewinds_witness :
    ConfigGetParam ⟨bytes "a=1\nb=2\n", [], true⟩ 2 (some (bytes "a=")) (some (Value.num 0))
      = some (1, some (Value.num 1), ⟨bytes "a=1\nb=2\n", bytes "b=2\n", false⟩) ∧
    (ConfigGetParam ⟨bytes "a=1\nb=2\n", bytes "b=2\n", false⟩ 2 (some (bytes "a="))
        (some (Value.num 1))).map (fun t => (t.1, t.2.1))
      = some (1, some (Value.num 1)) :=
  ⟨by decide,
    ((C14_lookup_rewinds ⟨bytes "a=1\nb=2\n", [], true⟩ 2 (some (bytes "a="))
      (some (Value.num 0))).2 1 (some (Value.num 1))
      ⟨bytes "a=1\nb=2\n", bytes "b=2\n", false⟩ (by decide)).2⟩

/-- C15, as stated, fails: in the file `n= ` (a space behind `n=`) the text
behind `n=` is not empty and does not start with a digit, yet the Integer
lookup of `n=` returns 0 (not found): trimmed, the line is the name alone. -/
theorem C15_blank_remainder_counterexample :
    (bytes "n= ").drop (bytes "n=").length ≠ [] ∧
    startsNumeric ((bytes "n= ").drop (bytes "n=").length) = false ∧
    result (bytes "n= \n") 2 (some (bytes "n=")) (some (Value.num 7))
      = some (0, some (Value.num 7)) := by
  decide

/-- C15 (amended): in a file whose lines have at most 255 bytes in front of a
`#`, when the first line that begins with the name has a captured form (cut
at the first `#`, trailing spaces and NUL bytes removed) with a non-empty
text behind the name that does not start, after optional white space and
sign, with a decimal digit, the Integer lookup returns 1 and stores 0;
`n=abc` gives 0, found. -/
theorem C15_non_numeric_is_zero (ls : List (List Nat)) (name l post : List Nat) (v : Value)
    (hname : name ≠ [] ∧ ∀ b ∈ name, b ≠ 0)
    (hls : ∀ e ∈ ls, (∀ b ∈ e, b ≠ 10) ∧ (beforeComment e).length ≤ 255 ∧ ¬ name <+: e)
    (hl : (∀ b ∈ l, b ≠ 10) ∧ (beforeComment l).length ≤ 255 ∧ name <+: l)
    (hrem : (captured l).drop name.length ≠ [] ∧
      startsNumeric ((captured l).drop name.length) = false) :
    result (unlines ls ++ (l ++ 10 :: post)) 2 (some name) (some v)
      = some (1, some (Value.num 0)) ∧
    result (bytes "n=abc\n") 2 (some (bytes "n=")) (some v)
      = some (1, some (Value.num 0)) := by
  have key : ∀ (ls : List (List Nat)) (name l post : List Nat),
      (name ≠ [] ∧ ∀ b ∈ name, b ≠ 0) →
      (∀ e ∈ ls, (∀ b ∈ e, b ≠ 10) ∧ (beforeComment e).length ≤ 255 ∧ ¬ name <+: e) →
      ((∀ b ∈ l, b ≠ 10) ∧ (beforeComment l).length ≤ 255 ∧ name <+: l) →
      ((captured l).drop name.length ≠ [] ∧
        startsNumeric ((captured l).drop name.length) = false) →
      result (unlines ls ++ (l ++ 10 :: post)) 2 (some name) (some v)
        = some (1, some (Value.num 0)) := by
    intro ls name l post hname hls hl hrem
    have hlen1 : 0 < name.length := List.length_pos.2 hname.1
    have hlen2 : name.length < (captured l).length := by
      have := List.length_pos.2 hrem.1
      rw [List.length_drop] at this
      omega
    have hpre : name <+: captured l :=
      List.prefix_of_prefix_length_le hl.2.2 (captured_initial l) (Nat.le_of_lt hlen2)
    have hhit : Hit name (rstrip (beforeComment l)) := ⟨by
      unfold captured at hlen2
      omega, hlen2, hpre⟩
    apply result_scan
    have h0 : toULong 0 = 0 := by decide
    apply scan_first 2 (some name) v ls l post _ _ hl.1 hl.2.1
    · rw [line_num name _ v hname.2]
      have hz := parseNumber_zero _ hrem.2
      unfold captured at hz
      simp [hhit, hz, h0]
    · intro e he
      refine ⟨(hls e he).1, (hls e he).2.1, ?_⟩
      rw [line_num name _ v hname.2]
      have : ¬ Hit name (rstrip (beforeComment e)) :=
        fun hh => (hls e he).2.2 (hh.2.2.trans (captured_initial e))
      simp [this]
  refine ⟨key ls name l post hname hls hl hrem, ?_⟩
  have := key [] (bytes "n=") (bytes "n=abc") [] (by decide) (by decide) (by decide)
    (by decide)
  have e : unlines [] ++ (bytes "n=abc" ++ 10 :: []) = bytes "n=abc\n" := by decide
  rw [e] at this
  exact this

/-- Witness of `C15_non_numeric_is_zero`: the line `n= -x1k # note` behind the
line `m=5`, followed by `n=7`. -/
theorem C15_non_numeric_is_zero_witness :
    result (unlines [bytes "m=5"] ++ (bytes "n= -x1k # note" ++ 10 :: bytes "n=7\n")) 2
      (some (bytes "n=")) (some (Value.num 9)) = some (1, some (Value.num 0)) :=
  (C15_non_numeric_is_zero [bytes "m=5"] (bytes "n=") (bytes "n= -x1k # note")
    (bytes "n=7\n") (Value.num 9) (by decide) (by decide) (by decide) (by decide)).1

/-- C16, as stated, fails: in `3000000k` the text in front of the `k` is the
numeral of 3000000, and `ConfigParseNumber` returns -1222967296, not
3000000*1024, which does not fit an `int`; in `9223372036854775808k` the
numeral does not fit a `long` either, and the result is -1024. -/
theorem C16_product_overflow_counterexample :
    bytes "3000000k" = decimal 3000000 ++ 107 :: [] ∧
    ConfigParseNumber (bytes "3000000k") = -1222967296 ∧
    ConfigParseNumber (bytes "3000000k") ≠ 3000000 * 1024 ∧
    ConfigParseNumber (bytes "9223372036854775808k") = -1024 := by
  refine ⟨?_, by decide, by decide, by decide⟩
  simp [decimal]
  decide

/-- C16 (amended): for every value text of which `p`, free of NUL and shorter
than 256 bytes, is the part in front of the first `k`, `K` or `M`,
`ConfigParseNumber` does not depend on what follows that character: it gives
what it gives on `p` followed by that character alone.  When `p` is the
decimal numeral of `d` and the product is below 2^31, the result is `d*1024`
for `k` and `K` and `d*1024*1024` for `M`; `4k5M` gives 4096 and `1M2k`
gives 1048576. -/
theorem C16_first_suffix_wins (p rest : List Nat) (d : Nat)
    (hp : ∀ b ∈ p, b ≠ 0 ∧ b ≠ 107 ∧ b ≠ 75 ∧ b ≠ 77) (hlen : p.length < 256) :
    ConfigParseNumber (p ++ 107 :: rest) = ConfigParseNumber (p ++ [107]) ∧
    ConfigParseNumber (p ++ 75 :: rest) = ConfigParseNumber (p ++ [75]) ∧
    ConfigParseNumber (p ++ 77 :: rest) = ConfigParseNumber (p ++ [77]) ∧
    (d * 1024 < 2147483648 →
      ConfigParseNumber (decimal d ++ 107 :: rest) = (d * 1024 : Nat) ∧
      ConfigParseNumber (decimal d ++ 75 :: rest) = (d * 1024 : Nat)) ∧
    (d * 1024 * 1024 < 2147483648 →
      ConfigParseNumber (decimal d ++ 77 :: rest) = (d * 1024 * 1024 : Nat)) ∧
    ConfigParseNumber (bytes "4k5M") = 4096 ∧
    ConfigParseNumber (bytes "1M2k") = 1048576 := by
  have hdec : ∀ b ∈ decimal d, b ≠ 0 ∧ b ≠ 107 ∧ b ≠ 75 ∧ b ≠ 77 := by
    intro b hb
    have := decimal_digits d b hb
    omega
  have hat : d < 2147483648 → atoi (decimal d) = d := by
    intro hd
    have := atoi_decimal d [] hd (Or.inl rfl)
    rw [List.append_nil] at this
    exact this
  have hs := parseNumber_rest p rest hp hlen
  refine ⟨hs.1, hs.2.1, hs.2.2, fun h => ?_, fun h => ?_, by decide, by decide⟩
  · have hd : d < 2147483648 := by omega
    have hl := decimal_length d hd
    have hs2 := parseNumber_suffix (decimal d) rest hdec (by omega)
    have e : (d : Int) * 1024 = ((d * 1024 : Nat) : Int) := by push_cast; rfl
    rw [hs2.1, hs2.2.1, hat hd, e]
    exact ⟨wrap32_of_lt _ h, wrap32_of_lt _ h⟩
  · have hd : d < 2147483648 := by omega
    have hl := decimal_length d hd
    have hs2 := parseNumber_suffix (decimal d) rest hdec (by omega)
    have e : (d : Int) * 1024 * 1024 = ((d * 1024 * 1024 : Nat) : Int) := by push_cast; rfl
    rw [hs2.2.2, hat hd, e]
    exact wrap32_of_lt _ h

/-- Witness of `C16_first_suffix_wins`: the text ` 12` in front of the suffix
and `9M` behind it, and the numeral 3. -/
theorem C16_first_suffix_wins_witness :
    ConfigParseNumber (bytes " 12" ++ 107 :: bytes "9M")
      = ConfigParseNumber (bytes " 12" ++ [107]) ∧
    ConfigParseNumber (decimal 3 ++ 107 :: bytes "9M") = (3 * 1024 : Nat) ∧
    ConfigParseNumber (decimal 3 ++ 77 :: bytes "9M") = (3 * 1024 * 1024 : Nat) :=
  ⟨(C16_first_suffix_wins (bytes " 12") (bytes "9M") 3 (by decide) (by decide)).1,
    ((C16_first_suffix_wins (bytes " 12") (bytes "9M") 3 (by decide) (by decide)).2.2.2.1
      (by decide)).1,
    (C16_first_suffix_wins (bytes " 12") (bytes "9M") 3 (by decide) (by decide)).2.2.2.2.1
      (by decide)⟩

/-- C17, as stated, fails for names that are empty or hold a `#`: with the
empty name and the value `x`, the line `x #c` gives 0 (a line of one byte is
passed over); with the name `a#` and the value `1`, the line `a#1#` gives 0
(the line is cut inside the name). -/
theorem C17_name_counterexample :
    result (([] : List Nat) ++ bytes "x" ++ List.replicate 1 32 ++ 35 :: bytes "c" ++ [10]) 1
      (some []) (some (Value.str [])) = some (0, some (Value.str [])) ∧
    result (bytes "a#" ++ bytes "1" ++ List.replicate 0 32 ++ 35 :: [] ++ [10]) 1
      (some (bytes "a#")) (some (Value.str [])) = some (0, some (Value.str [])) := by
  decide

/-- C17 (amended): for every non-empty name free of `#`, newline and NUL,
every non-empty value `v` free of `#`, newline and NUL and not ending in a
space, every number `s` of spaces and every comment text `c`, with fewer than
255 bytes in front of the `#`, the Text lookup on the line
`name v spaces # c` returns 1 and stores `v`, as it does on the line
`name v`. -/
theorem C17_inline_comment_removed (name v c : List Nat) (s : Nat) (w : Value)
    (hname : name ≠ [] ∧ ∀ b ∈ name, b ≠ 0 ∧ b ≠ 10 ∧ b ≠ 35)
    (hv : v ≠ [] ∧ ∀ b ∈ v, b ≠ 0 ∧ b ≠ 10 ∧ b ≠ 35)
    (hend : v.getLast? ≠ some 32)
    (hc : ∀ b ∈ c, b ≠ 10)
    (hlen : name.length + v.length + s < 255) :
    result (name ++ v ++ List.replicate s 32 ++ 35 :: c ++ [10]) 1 (some name) (some w)
      = some (1, some (Value.str v)) ∧
    result (name ++ v ++ [10]) 1 (some name) (some w) = some (1, some (Value.str v)) := by
  have hn0 : ∀ b ∈ name, b ≠ 0 := fun b hb => (hname.2 b hb).1
  have hsp : ∀ b ∈ List.replicate s 32, b = 32 := fun b hb => List.eq_of_mem_replicate hb
  have hpre35 : ∀ b ∈ name ++ v ++ List.replicate s 32, b ≠ 35 := by
    intro b hb
    rcases List.mem_append.1 hb with h | h
    · rcases List.mem_append.1 h with h | h
      · exact (hname.2 b h).2.2
      · exact (hv.2 b h).2.2
    · rw [hsp b h]; decide
  have hl10 : ∀ b ∈ name ++ v ++ List.replicate s 32 ++ 35 :: c, b ≠ 10 := by
    intro b hb
    rcases List.mem_append.1 hb with h | h
    · rcases List.mem_append.1 h with h | h
      · rcases List.mem_append.1 h with h | h
        · exact (hname.2 b h).2.1
        · exact (hv.2 b h).2.1
      · rw [hsp b h]; decide
    · rcases List.mem_cons.1 h with h | h
      · rw [h]; decide
      · exact hc b h
  have hbc : beforeComment (name ++ v ++ List.replicate s 32 ++ 35 :: c)
      = name ++ v ++ List.replicate s 32 := by
    rw [beforeComment_append _ _ hpre35]
    simp [beforeComment]
  have hrs : rstrip (name ++ v ++ List.replicate s 32) = name ++ v := by
    rw [rstrip_append, rstrip_spaces]
    simp only [if_true]
    exact rstrip_value name v ⟨hv.1, fun b hb => (hv.2 b hb).1⟩ hend
  have hlen1 : 0 < name.length := List.length_pos.2 hname.1
  have hlen2 : 0 < v.length := List.length_pos.2 hv.1
  have hhit : Hit name (name ++ v) :=
    ⟨by rw [List.length_append]; omega, by rw [List.length_append]; omega,
      List.prefix_append _ _⟩
  constructor
  · have h := scan_first 1 (some name) w [] (name ++ v ++ List.replicate s 32 ++ 35 :: c) []
      (1, Value.str v) (fun e he => by simp at he) hl10
      (by rw [hbc]; simp only [List.length_append, List.length_replicate]; omega)
      (by rw [hbc, line_text name _ w hn0, hrs]; simp [hhit])
    apply result_scan
    have e : name ++ v ++ List.replicate s 32 ++ 35 :: c ++ [10]
        = unlines [] ++ (name ++ v ++ List.replicate s 32 ++ 35 :: c ++ 10 :: []) := by
      simp [unlines]
    rw [e]
    exact h
  · have h := (scan_clean_line [] name v [] w hname hv hend (by omega)
      (fun l hl => by simp at hl)).1
    apply result_scan
    have e : name ++ v ++ [10] = unlines [] ++ (name ++ v ++ 10 :: []) := by
      simp [unlines]
    rw [e]
    exact h

/-- Witness of `C17_inline_comment_removed`: the line `host=a b   # note`. -/
theorem C17_inline_comment_removed_witness :
    result (bytes "host=" ++ bytes "a b" ++ List.replicate 3 32 ++ 35 :: bytes " note" ++ [10]) 1
      (some (bytes "host=")) (some (Value.str [])) = some (1, some (Value.str (bytes "a b"))) ∧
    result (bytes "host=" ++ bytes "a b" ++ [10]) 1 (some (bytes "host="))
      (some (Value.str [])) = some (1, some (Value.str (bytes "a b"))) :=
  C17_inline_comment_removed (bytes "host=") (bytes "a b") (bytes " note") 3 (Value.str [])
    (by decide) (by decide) (by decide) (by decide) (by decide)

/-- C18: for every file of newline-terminated lines of at most 254 bytes
without NUL bytes, and every name, the Text lookup returns 1 exactly when
some captured line (the line cut at its first `#`, trailing spaces removed)
has at least two bytes, is strictly longer than the name and begins with it;
it stores what follows the name in the first such line.  A text that is found
is never empty, and the line `key=` is not found by `key=`. -/
theorem C18_text_lookup_characterised (ls : List (List Nat)) (name : List Nat) (v : Value)
    (hls : ∀ l ∈ ls, (∀ b ∈ l, b ≠ 10 ∧ b ≠ 0) ∧ l.length ≤ 254)
    (hname : ∀ b ∈ name, b ≠ 0) :
    (result (unlines ls) 1 (some name) (some v) =
      match ls.find? (fun l => decide (Hit name (trimSpaces (beforeComment l)))) with
      | some l => some (1, some (Value.str ((trimSpaces (beforeComment l)).drop name.length)))
      | none => some (0, some v)) ∧
    ((∃ x, result (unlines ls) 1 (some name) (some v) = some (1, some x)) ↔
      ∃ l ∈ ls, Hit name (trimSpaces (beforeComment l))) ∧
    (∀ s, result (unlines ls) 1 (some name) (some v) = some (1, some (Value.str s)) →
      s ≠ []) ∧
    result (bytes "key=\n") 1 (some (bytes "key=")) (some v) = some (0, some v) := by
  have key : ∀ (ls : List (List Nat)) (name : List Nat),
      (∀ l ∈ ls, (∀ b ∈ l, b ≠ 10 ∧ b ≠ 0) ∧ l.length ≤ 254) → (∀ b ∈ name, b ≠ 0) →
      result (unlines ls) 1 (some name) (some v) =
        match ls.find? (fun l => decide (Hit name (trimSpaces (beforeComment l)))) with
        | some l =>
          some (1, some (Value.str ((trimSpaces (beforeComment l)).drop name.length)))
        | none => some (0, some v) := by
    intro ls name hls hname
    rw [result_some _ _ _ _ [], scan_text_find ls name v hls hname]
    cases ls.find? (fun l => decide (Hit name (trimSpaces (beforeComment l)))) <;> rfl
  have h := key ls name hls hname
  refine ⟨h, ?_, ?_, ?_⟩
  · rw [h]
    cases hf : ls.find? (fun l => decide (Hit name (trimSpaces (beforeComment l)))) with
    | none =>
      simp only
      constructor
      · rintro ⟨x, hx⟩
        simp at hx
      · rintro ⟨l, hl, hh⟩
        have := List.find?_eq_none.1 hf l hl
        simp [hh] at this
    | some l =>
      simp only
      constructor
      · intro _
        have h1 := List.find?_some hf
        exact ⟨l, List.mem_of_find?_eq_some hf, by simpa using h1⟩
      · intro _
        exact ⟨_, rfl⟩
  · intro s hs
    rw [h] at hs
    cases hf : ls.find? (fun l => decide (Hit name (trimSpaces (beforeComment l)))) with
    | none =>
      rw [hf] at hs
      simp at hs
    | some l =>
      rw [hf] at hs
      simp only [Option.some.injEq, Prod.mk.injEq, true_and, Value.str.injEq] at hs
      have h1 : Hit name (trimSpaces (beforeComment l)) := by
        simpa using List.find?_some hf
      intro he
      rw [he] at hs
      have := congrArg List.length hs
      rw [List.length_drop] at this
      have h2 := h1.2.1
      simp only [List.length_nil] at this
      omega
  · have := key [bytes "key="] (bytes "key=") (by decide) (by decide)
    have e : unlines [bytes "key="] = bytes "key=\n" := by decide
    have e2 : [bytes "key="].find?
        (fun l => decide (Hit (bytes "key=") (trimSpaces (beforeComment l)))) = none := by
      decide
    rw [e, e2] at this
    exact this

/-- Witness of `C18_text_lookup_characterised`: the file `# c`, `k`, `key=`,
`key=v1  # one`, `key=v2` and the name `key=`. -/
theorem C18_text_lookup_characterised_witness :
    result (unlines [bytes "# c", bytes "k", bytes "key=", bytes "key=v1  # one",
        bytes "key=v2"]) 1 (some (bytes "key=")) (some (Value.str [])) =
      match [bytes "# c", bytes "k", bytes "key=", bytes "key=v1  # one",
          bytes "key=v2"].find?
          (fun l => decide (Hit (bytes "key=") (trimSpaces (beforeComment l)))) with
      | some l =>
        some (1, some (Value.str ((trimSpaces (beforeComment l)).drop (bytes "key=").length)))
      | none => some (0, some (Value.str [])) :=
  (C18_text_lookup_characterised [bytes "# c", bytes "k", bytes "key=",
    bytes "key=v1  # one", bytes "key=v2"] (bytes "key=") (Value.str [])
    (by decide) (by decide)).1

/-- C19: for every file and name, the Integer lookup returns 1 exactly when
the Text lookup does, and then stores `ConfigParseNumber` of the text that the
Text lookup stores (converted to `unsigned long`); and when the Boolean lookup
returns 1, the Text lookup returns 1. -/
theorem C19_typed_lookups_refine_text (content : List Nat) (name : Option (List Nat))
    (v1 v2 v3 : Value) :
    ((result content 1 name (some v1) = some (0, some v1) ∧
        result content 2 name (some v2) = some (0, some v2)) ∨
      ∃ s, result content 1 name (some v1) = some (1, some (Value.str s)) ∧
        result content 2 name (some v2)
          = some (1, some (Value.num (toULong (ConfigParseNumber s))))) ∧
    (result content 3 name (some v3) = some (0, some v3) ∨
      ∃ b s, result content 3 name (some v3) = some (1, some (Value.int b)) ∧
        result content 1 name (some v1) = some (1, some (Value.str s))) := by
  constructor
  · rcases scan_text_num name v1 v2 [] content with ⟨h1, h2⟩ | ⟨s, h1, h2⟩
    · exact Or.inl ⟨result_scan _ _ _ _ _ _ h1, result_scan _ _ _ _ _ _ h2⟩
    · exact Or.inr ⟨s, result_scan _ _ _ _ _ _ h1, result_scan _ _ _ _ _ _ h2⟩
  · rcases scan_bool_text name v3 v1 [] content with h | ⟨b, s, h3, h1⟩
    · exact Or.inl (result_scan _ _ _ _ _ _ h)
    · exact Or.inr ⟨b, s, result_scan _ _ _ _ _ _ h3, result_scan _ _ _ _ _ _ h1⟩

/-- C20: `ConfigGetParam` returns on every stream, for every type, name and
object: the bound on the passes of the loop is not reached, and a larger
bound gives the same result; every pass of the line loop on a stream that is
not at its end reads a byte or sets the end-of-file indicator; and the
comment loop ends at a newline or with the end-of-file indicator set. -/
theorem C20_lookup_terminates (f : FILE) (type : Int) (name : Option (List Nat))
    (value : Option Value) :
    (∃ r, ConfigGetParam f type name value = some r) ∧
    (∀ (v : Value) (d rest : List Nat) (k : Nat),
      ConfigGetParam.loop type name v (rest.length + 1 + k) ⟨d, rest, false⟩
        = ConfigGetParam.loop type name v (rest.length + 1) ⟨d, rest, false⟩) ∧
    (∀ d rest : List Nat,
      (readLine 255 [] ⟨d, rest, false⟩).2.eof = true ∨
        (readLine 255 [] ⟨d, rest, false⟩).2.rest.length < rest.length) ∧
    (∀ d rest : List Nat,
      ((skipComment.loop d rest).1 = 10 ∧ (skipComment.loop d rest).2.eof = false ∧
          (skipComment.loop d rest).2.rest.length < rest.length) ∨
        ((skipComment.loop d rest).2.eof = true ∧ (skipComment.loop d rest).2.rest = [])) := by
  refine ⟨?_, ?_, ?_, ?_⟩
  · cases value with
    | none => exact ⟨(0, none, ⟨f.data, f.data, false⟩), by simp [ConfigGetParam, fseek]⟩
    | some w =>
      have hs : ∃ t, scan type name w f.data f.data = some t := by
        rcases scan_cases type name w f.data f.data with h | ⟨x, h⟩
        · exact ⟨_, h⟩
        · exact ⟨_, h⟩
      obtain ⟨t, ht⟩ := hs
      simp only [scan, Option.map_eq_some'] at ht
      obtain ⟨u, hu, _⟩ := ht
      exact ⟨(u.1, some u.2.1, u.2.2), by simp [ConfigGetParam, fseek, hu]⟩
  · intro v d rest k
    exact loop_fuel type name v _ _ _ (Or.inr (by simp; omega)) (Or.inr (by simp))
  · intro d rest
    exact readLine_progress 254 [] ⟨d, rest, false⟩ rfl
  · intro d rest
    induction rest with
    | nil => right; simp [skipComment.loop]
    | cons b r ih =>
      simp only [skipComment.loop]
      by_cases hb : b = 10
      · left
        simp [hb]
      · simp only [ne_eq, hb, not_false_eq_true, if_true]
        rcases ih with ⟨h1, h2, h3⟩ | h
        · left
          exact ⟨h1, h2, by simp only [List.length_cons]; omega⟩
        · right
          exact h

end CfgParser
